import Mathlib

/-!
Verification of `datasize::unit` (src/quantity.hpp).

A shallow embedding of the quantity template of `src/quantity.hpp`.

* A representation type is either integral (`IntType`: signedness and width) or
  floating-point.  Raw values of integral representations are mathematical integers;
  every conversion and every arithmetic operation is followed explicitly through the
  width of the C++ type it is evaluated in: a conversion to an integral type keeps a
  representable value and otherwise reduces it modulo `2 ^ bits`; signed arithmetic
  whose result is not representable is undefined and yields `none`.
* A scale is the pair of reduced members `num`, `den` of a `std::ratio`.
* Everything that is a compile-time failure in C++ (a failing `static_assert`, a
  disabled constructor) is `none` as well.
-/

namespace datasize

/-! ## Integral representation types -/

/-- An integral C++ type, identified by its signedness and its width in bits.  Distinct
C++ types of equal signedness and width (`long` and `long long` on LP64) are identified. -/
structure IntType where
  signed : Bool
  bits : Nat
deriving DecidableEq, Repr

namespace IntType

/-- Value of `std::numeric_limits<T>::lowest()`. -/
def lowest (t : IntType) : Int :=
  if t.signed then -(2 ^ (t.bits - 1)) else 0

/-- Value of `std::numeric_limits<T>::max()`. -/
def highest (t : IntType) : Int :=
  if t.signed then 2 ^ (t.bits - 1) - 1 else 2 ^ t.bits - 1

/-- The mathematical integer `x` is a value of the type `t`. -/
def inRange (t : IntType) (x : Int) : Prop :=
  t.lowest ≤ x ∧ x ≤ t.highest

instance (t : IntType) (x : Int) : Decidable (t.inRange x) := by
  unfold inRange; exact inferInstance

/-- Conversion `static_cast<T>(x)` to an integral type: a representable value is
unchanged, any other value is reduced modulo `2 ^ bits` into the range of the type. -/
def convert (t : IntType) (x : Int) : Int :=
  if t.inRange x then x
  else if t.signed then Int.bmod x (2 ^ t.bits) else x % 2 ^ t.bits

/-- Outcome of an arithmetic operation evaluated in type `t` whose mathematical result is
`x`: the result itself when representable; otherwise undefined for a signed type and
reduced modulo `2 ^ bits` for an unsigned type. -/
def arith (t : IntType) (x : Int) : Option Int :=
  if t.inRange x then some x
  else if t.signed then none else some (x % 2 ^ t.bits)

/-- The type `int`. -/
def int : IntType := ⟨true, 32⟩

/-- The type `long` (LP64 data model, as `long long`). -/
def long : IntType := ⟨true, 64⟩

/-- The type `long long`. -/
def long_long : IntType := ⟨true, 64⟩

/-- The type `intmax_t`. -/
def intmax_t : IntType := ⟨true, 64⟩

/-- Integral promotion: a type narrower than `int` is promoted to `int`. -/
def promote (t : IntType) : IntType :=
  if t.bits < 32 then int else t

/-- The type `std::common_type<A, B>::type` of two integral types: the type itself when both
are the same, otherwise the result of the usual arithmetic conversions. -/
def common (a b : IntType) : IntType :=
  if a = b then a
  else
    let pa := promote a
    let pb := promote b
    if pa.signed = pb.signed then ⟨pa.signed, max pa.bits pb.bits⟩
    else if pa.signed then (if pa.bits ≤ pb.bits then pb else pa)
    else (if pb.bits ≤ pa.bits then pa else pb)

/-- Result of a binary arithmetic expression on two operands of type `t` whose mathematical
result is `x`, stored back into a `t`: the operands are promoted, the operation is
evaluated in the promoted type, and the result is converted to `t`. -/
def op (t : IntType) (x : Int) : Option Int :=
  ((promote t).arith x).map t.convert

end IntType

/-- A representation type of a quantity: integral or floating-point. -/
inductive Rep where
  | integral (t : IntType)
  | floating
deriving DecidableEq, Repr

/-- The trait `treat_as_floating_point<Rep>` (line 111): `std::is_floating_point<Rep>`. -/
def treat_as_floating_point : Rep → Bool
  | .integral _ => false
  | .floating => true

/-! ## Compile-time rationals (`<ratio>`) -/

/-- The members `num` and `den` of a `std::ratio` instantiation. -/
structure Ratio where
  num : Int
  den : Int
deriving DecidableEq, Repr

/-- The largest value of `intmax_t`. -/
def INTMAX_MAX : Int := 2 ^ 63 - 1

/-- Modelled from the spec: `std::__static_sign` of the standard header `ratio`, which is
not under src/: the sign of a compile-time integer. -/
def static_sign (x : Int) : Int :=
  if x = 0 then 0 else if x < 0 then -1 else 1

/-- Modelled from the spec: `std::__static_abs` of the standard header `ratio`, which is
not under src/: the absolute value of a compile-time integer. -/
def static_abs (x : Int) : Int :=
  if x < 0 then -x else x

/-- Modelled from the spec: `std::__static_gcd` of the standard header `ratio`, which is
not under src/: the greatest common divisor used for every reduction of a scale. -/
def static_gcd (x y : Int) : Int :=
  Int.gcd x y

/-- Modelled from the spec: the static assertions of `std::ratio<N, D>` (standard header
`ratio`, not under src/): the denominator is not zero and both arguments have an absolute
value representable in `intmax_t`. -/
def ratio_ok (N D : Int) : Bool :=
  decide (D ≠ 0) && decide (static_abs N ≤ INTMAX_MAX) && decide (static_abs D ≤ INTMAX_MAX)

/-- Modelled from the spec: the members of `std::ratio<N, D>` (standard header `ratio`, not
under src/): the fraction `N / D` in lowest terms, the sign carried by the numerator. -/
def ratio (N D : Int) : Ratio :=
  let na := static_abs N
  let da := static_abs D
  let s := static_sign N * static_sign D
  let g := static_gcd na da
  ⟨Int.tdiv (s * na) g, Int.tdiv da g⟩

/-- Modelled from the spec: `std::__ll_mul` of the standard header `ratio`, which is not
under src/: the product of two compile-time integers, a compile-time failure when its
magnitude exceeds the largest `intmax_t`. -/
def ll_mul (x y : Int) : Option Int :=
  if static_abs x * static_abs y ≤ INTMAX_MAX then some (x * y) else none

/-- Modelled from the spec: `std::ratio_divide<R1, R2>::type` (standard header `ratio`, not
under src/): the quotient of two ratios reduced to lowest terms; numerators and
denominators are first divided by their common divisors, and a product that does not fit
`intmax_t` is a compile-time failure. -/
def ratio_divide (R1 R2 : Ratio) : Option Ratio :=
  if R2.num = 0 then none
  else
    let gcd_n1_n2 := static_gcd R1.num R2.num
    let gcd_d1_d2 := static_gcd R1.den R2.den
    match ll_mul (Int.tdiv R1.num gcd_n1_n2) (Int.tdiv R2.den gcd_d1_d2),
          ll_mul (Int.tdiv R2.num gcd_n1_n2) (Int.tdiv R1.den gcd_d1_d2) with
    | some n, some d => if ratio_ok n d then some (ratio n d) else none
    | _, _ => none

/-- Modelled from the spec: `std::__static_lcm` of the standard header `ratio`, which is not
under src/: the least common multiple `x / gcd(x, y) * y`, a compile-time failure when it
does not fit `intmax_t`. -/
def static_lcm (x y : Int) : Option Int :=
  let v := Int.tdiv x (static_gcd x y) * y
  if static_abs v ≤ INTMAX_MAX then some v else none

/-- Modelled from the spec: `std::__ratio_gcd<R1, R2>::type` (standard header `ratio`, not
under src/), the common scale of two scale descriptors: the greatest common divisor of the
numerators over the least common multiple of the denominators, in lowest terms. -/
def ratio_gcd (R1 R2 : Ratio) : Option Ratio :=
  match static_lcm R1.den R2.den with
  | some l =>
    let g := static_gcd R1.num R2.num
    if ratio_ok g l then some (ratio g l) else none
  | none => none

/-- A scale descriptor as a quantity type holds it (`unit::scale`, line 162, under the
static assertion of line 128): positive, in lowest terms, both members in `intmax_t`. -/
def Ratio.valid (r : Ratio) : Prop :=
  0 < r.num ∧ 0 < r.den ∧ r.num ≤ INTMAX_MAX ∧ r.den ≤ INTMAX_MAX ∧ Int.gcd r.num r.den = 1

instance (r : Ratio) : Decidable r.valid := by
  unfold Ratio.valid; exact inferInstance

/-- The rational number a scale descriptor denotes. -/
def Ratio.toRat (r : Ratio) : ℚ := (r.num : ℚ) / (r.den : ℚ)

/-- The ratio `sourceScale / targetScale` of two scale descriptors as a rational number;
its `num` and `den` are the ratio in lowest terms, the pair `(N, D)` of the specification. -/
def scaleQuotient (source target : Ratio) : ℚ := source.toRat / target.toRat

/-- The common scale of two scale descriptors as the specification states it: the greatest
common divisor of the numerators over the least common multiple of the denominators. -/
def commonScale (s1 s2 : Ratio) : Ratio :=
  ⟨Int.gcd s1.num s2.num, Int.lcm s1.den s2.den⟩

/-- The numerator of the ratio `s / c` in lowest terms: the integer `s / c` itself when
the scale `s` is an integer multiple of the scale `c`. -/
def scaleFactor (s c : Ratio) : Int := (scaleQuotient s c).num

/-! ## Quantity types -/

/-- A quantity type `unit<Rep, Scale>`: its representation and its scale `Scale::type`.
Two instantiations whose scale arguments reduce to the same ratio are identified. -/
structure UnitType where
  rep : Rep
  scale : Ratio
deriving DecidableEq, Repr

/-- A quantity type `unit<Rep, Scale>` with an integral representation.  A value of the
type is given by its raw value `count()`, an integer in the range of `rep`. -/
structure IntUnit where
  rep : IntType
  scale : Ratio
deriving DecidableEq, Repr

/-- The quantity type of an integral quantity type. -/
def IntUnit.toUnitType (u : IntUnit) : UnitType := ⟨.integral u.rep, u.scale⟩

/-- The magnitude a raw value denotes at a scale, in canonical units. -/
def magnitude (scale : Ratio) (count : Int) : ℚ := (count : ℚ) * scale.toRat

/-- Alias `i_bytes` (line 222). -/
def i_bytes : IntUnit := ⟨IntType.long_long, ratio 1 1⟩

/-- Alias `i_kilobytes` (line 223). -/
def i_kilobytes : IntUnit := ⟨IntType.long_long, ratio 1 1⟩

/-- Alias `i_megabytes` (line 224). -/
def i_megabytes : IntUnit := ⟨IntType.long_long, ratio 1024 1⟩

/-- Alias `i_gigabytes` (line 225). -/
def i_gigabytes : IntUnit := ⟨IntType.long, ratio 1048576 1⟩

/-- Alias `i_terabytes` (line 226). -/
def i_terabytes : IntUnit := ⟨IntType.long, ratio 1073741824 1⟩

/-! ## The explicit cast (lines 45-109) -/

/-- The operations of the representation types that `_unit_cast` uses, for a source
representation `From`, a target representation `To` and the intermediate type `Ct`, the
common type of (target representation, source representation, `intmax_t`). -/
structure CastOps (From To Ct : Type) where
  /-- Conversion `static_cast<typename ToUnit::rep>(fu.count())` of a source raw value. -/
  toRep : From → To
  /-- Conversion `static_cast<Ct>(fu.count())` of a source raw value. -/
  toCt : From → Ct
  /-- Conversion `static_cast<Ct>(Scale::num)`, `static_cast<Ct>(Scale::den)`. -/
  constant : Int → Ct
  /-- Multiplication in `Ct`; `none` when undefined. -/
  mul : Ct → Ct → Option Ct
  /-- Division in `Ct`; `none` when undefined. -/
  div : Ct → Ct → Option Ct
  /-- Conversion `static_cast<typename ToUnit::rep>` of an intermediate result. -/
  narrow : Ct → To

/-- The four specialisations of `_unit_cast` (lines 52-97), selected by `Scale::num == 1`
and `Scale::den == 1`. -/
def _unit_cast {From To Ct : Type} (ops : CastOps From To Ct) (Scale : Ratio) (fu : From) :
    Option To :=
  match decide (Scale.num = 1), decide (Scale.den = 1) with
  | true, true => some (ops.toRep fu)
  | true, false => (ops.div (ops.toCt fu) (ops.constant Scale.den)).map ops.narrow
  | false, true => (ops.mul (ops.toCt fu) (ops.constant Scale.num)).map ops.narrow
  | false, false =>
    ((ops.mul (ops.toCt fu) (ops.constant Scale.num)).bind
      fun p => ops.div p (ops.constant Scale.den)).map ops.narrow

/-- The function `unit_cast<ToUnit>` (lines 99-109) for a source scale and a target scale:
`Scale` defaults to `ratio_divide<FromUnit::scale, ToUnit::scale>::type` (line 47). -/
def unit_cast {From To Ct : Type} (ops : CastOps From To Ct) (fromScale toScale : Ratio)
    (fu : From) : Option To :=
  match ratio_divide fromScale toScale with
  | some Scale => _unit_cast ops Scale fu
  | none => none

/-- The intermediate type `Ct` of `_unit_cast` for integral representations:
`common_type<ToUnit::rep, FromUnit::rep, intmax_t>` (lines 68, 80, 92). -/
def castCt (To From : IntType) : IntType :=
  IntType.common (IntType.common To From) IntType.intmax_t

/-- The operations `_unit_cast` uses when both representations are integral. -/
def intOps (From To : IntType) : CastOps Int Int Int where
  toRep := To.convert
  toCt := (castCt To From).convert
  constant := (castCt To From).convert
  mul := fun a b => (castCt To From).arith (a * b)
  div := fun a b => if b = 0 then none else (castCt To From).arith (Int.tdiv a b)
  narrow := To.convert

/-- The function `unit_cast<ToUnit>(fu)` between two integral quantity types, on raw values. -/
def IntUnit.unit_cast (FromUnit ToUnit : IntUnit) (fu : Int) : Option Int :=
  datasize.unit_cast (intOps FromUnit.rep ToUnit.rep) FromUnit.scale ToUnit.scale fu

/-! ## The class `unit` (lines 123-220) -/

namespace unit

/-- The member `_no_overflow<R1, R2>::value` (lines 134-155). -/
def _no_overflow_value (R1 R2 : Ratio) : Bool :=
  let gcd_n1_n2_ := static_gcd R1.num R2.num
  let gcd_d1_d2_ := static_gcd R1.den R2.den
  let n1_ := Int.tdiv R1.num gcd_n1_n2_
  let d1_ := Int.tdiv R1.den gcd_d1_d2_
  let n2_ := Int.tdiv R2.num gcd_n1_n2_
  let d2_ := Int.tdiv R2.den gcd_d1_d2_
  let max_ := -((-(2 ^ 63)) + 1)
  decide (n1_ ≤ Int.tdiv max_ d2_) && decide (n2_ ≤ Int.tdiv max_ d1_)

/-- The member `_no_overflow<R1, R2>::_mul<Xp, Yp, overflow>::value` (lines 142-152). -/
def _mul (Xp Yp : Int) (overflow : Bool) : Int :=
  if overflow then 1 else Xp * Yp

/-- The member `_no_overflow<R1, R2>::type` (lines 156-157). -/
def _no_overflow_type (R1 R2 : Ratio) : Ratio :=
  let gcd_n1_n2_ := static_gcd R1.num R2.num
  let gcd_d1_d2_ := static_gcd R1.den R2.den
  let n1_ := Int.tdiv R1.num gcd_n1_n2_
  let d1_ := Int.tdiv R1.den gcd_d1_d2_
  let n2_ := Int.tdiv R2.num gcd_n1_n2_
  let d2_ := Int.tdiv R2.den gcd_d1_d2_
  let value := _no_overflow_value R1 R2
  ratio (_mul n1_ d2_ (!value)) (_mul n2_ d1_ (!value))

/-- The enabling condition of the converting constructor
`unit(const unit<Rep2, Scale2>&)` of `unit<Rep, Scale>` (lines 185-191): `Source` is
`unit<Rep2, Scale2>`, `Target` is the class being constructed. -/
def converting_enabled (Source Target : UnitType) : Bool :=
  _no_overflow_value Source.scale Target.scale &&
    (treat_as_floating_point Target.rep ||
      (decide ((_no_overflow_type Source.scale Target.scale).den = 1) &&
        !treat_as_floating_point Source.rep))

/-- The converting constructor `unit(const unit<Rep2, Scale2>& u)` (lines 182-192) between
integral quantity types, on raw values: `rep_(unit_cast<unit>(u).count())` when enabled. -/
def converting (Source Target : IntUnit) (u : Int) : Option Int :=
  if converting_enabled Source.toUnitType Target.toUnitType then
    Source.unit_cast Target u
  else none

end unit

/-- The type `std::common_type<unit<Rep1, Scale1>, unit<Rep2, Scale2>>::type`
(lines 34-40) of two integral quantity types. -/
def common_type (U1 U2 : IntUnit) : Option IntUnit :=
  match ratio_gcd U1.scale U2.scale with
  | some c => some ⟨IntType.common U1.rep U2.rep, c⟩
  | none => none

/-- The Common Type of two integral quantity types as the specification states it: the
common type of the representations at the common scale. -/
def commonUnit (U1 U2 : IntUnit) : IntUnit :=
  ⟨IntType.common U1.rep U2.rep, commonScale U1.scale U2.scale⟩

/-! ## Operators (lines 235-427) -/

/-- The function object `_unit_eq` (lines 237-254): same-type operands compare their raw
values, other operands are first converted to the common type. -/
def _unit_eq (LhsUnit RhsUnit : IntUnit) (lhs rhs : Int) : Option Bool :=
  if LhsUnit = RhsUnit then some (decide (lhs = rhs))
  else
    match common_type LhsUnit RhsUnit with
    | some Ct =>
      match unit.converting LhsUnit Ct lhs, unit.converting RhsUnit Ct rhs with
      | some l, some r => some (decide (l = r))
      | _, _ => none
    | none => none

/-- The operator `==` on two quantities (lines 256-261). -/
def eq (U1 U2 : IntUnit) (lhs rhs : Int) : Option Bool :=
  _unit_eq U1 U2 lhs rhs

/-- The operator `!=` on two quantities (lines 265-270). -/
def ne (U1 U2 : IntUnit) (lhs rhs : Int) : Option Bool :=
  (eq U1 U2 lhs rhs).map fun b => !b

/-- The operator `+` on two quantities (lines 331-338): the raw value of the result, a
quantity of the common type. -/
def add (U1 U2 : IntUnit) (lhs rhs : Int) : Option Int :=
  match common_type U1 U2 with
  | some Cu =>
    match unit.converting U1 Cu lhs, unit.converting U2 Cu rhs with
    | some l, some r => Cu.rep.op (l + r)
    | _, _ => none
  | none => none

/-- The operator `-` on two quantities (lines 342-349): the raw value of the result, a
quantity of the common type. -/
def sub (U1 U2 : IntUnit) (lhs rhs : Int) : Option Int :=
  match common_type U1 U2 with
  | some Cu =>
    match unit.converting U1 Cu lhs, unit.converting U2 Cu rhs with
    | some l, some r => Cu.rep.op (l - r)
    | _, _ => none
  | none => none

/-- The result type `unit<common_type<Rep1, Rep2>::type, Scale>` of a quantity divided by a
bare scalar of type `Rep2` (line 387). -/
def div_scalar_type (U : IntUnit) (Rep2 : IntType) : IntUnit :=
  ⟨IntType.common U.rep Rep2, U.scale⟩

/-- The operator `/` on a quantity and a bare scalar of type `Rep2` (lines 381-394): the
raw value of the result, `Cu(u).count() / static_cast<Cr>(s)`. -/
def div_scalar (U : IntUnit) (Rep2 : IntType) (u s : Int) : Option Int :=
  let Cu := div_scalar_type U Rep2
  match unit.converting U Cu u with
  | some c =>
    if Cu.rep.convert s = 0 then none
    else Cu.rep.op (Int.tdiv c (Cu.rep.convert s))
  | none => none

/-- The operator `/` on two quantities (lines 396-402): a bare scalar of type
`common_type<Rep1, Rep2>`, the quotient of the raw values in the common type. -/
def div (U1 U2 : IntUnit) (lhs rhs : Int) : Option Int :=
  match common_type U1 U2 with
  | some Ct =>
    match unit.converting U1 Ct lhs, unit.converting U2 Ct rhs with
    | some l, some r => if r = 0 then none else Ct.rep.op (Int.tdiv l r)
    | _, _ => none
  | none => none

/-- The function object `_unit_lt` (lines 274-293): same-type operands compare their raw
values, other operands are first converted to the common type. -/
def _unit_lt (LhsUnit RhsUnit : IntUnit) (lhs rhs : Int) : Option Bool :=
  if LhsUnit = RhsUnit then some (decide (lhs < rhs))
  else
    match common_type LhsUnit RhsUnit with
    | some Ct =>
      match unit.converting LhsUnit Ct lhs, unit.converting RhsUnit Ct rhs with
      | some l, some r => some (decide (l < r))
      | _, _ => none
    | none => none

/-- The operator `<` on two quantities (lines 295-300). -/
def lt (U1 U2 : IntUnit) (lhs rhs : Int) : Option Bool :=
  _unit_lt U1 U2 lhs rhs

/-- The operator `>` on two quantities (lines 304-309): `rhs < lhs`. -/
def gt (U1 U2 : IntUnit) (lhs rhs : Int) : Option Bool :=
  lt U2 U1 rhs lhs

/-- The operator `<=` on two quantities (lines 313-318): `!(rhs < lhs)`. -/
def le (U1 U2 : IntUnit) (lhs rhs : Int) : Option Bool :=
  (lt U2 U1 rhs lhs).map fun b => !b

/-- The operator `>=` on two quantities (lines 322-327): `!(lhs < rhs)`. -/
def ge (U1 U2 : IntUnit) (lhs rhs : Int) : Option Bool :=
  (lt U1 U2 lhs rhs).map fun b => !b

/-- The result type `unit<common_type<Rep1, Rep2>::type, Scale>` of a quantity multiplied
by a bare scalar of type `Rep2` (line 358). -/
def mul_scalar_type (U : IntUnit) (Rep2 : IntType) : IntUnit :=
  ⟨IntType.common U.rep Rep2, U.scale⟩

/-- The operator `*` on a quantity and a bare scalar of type `Rep2` (lines 353-365): the
raw value of the result, `Cu(u).count() * static_cast<Cr>(s)`. -/
def mul_scalar (U : IntUnit) (Rep2 : IntType) (u s : Int) : Option Int :=
  let Cu := mul_scalar_type U Rep2
  match unit.converting U Cu u with
  | some c => Cu.rep.op (c * Cu.rep.convert s)
  | none => none

/-- The result type `unit<common_type<Rep1, Rep2>::type, Scale>` of a bare scalar of type
`Rep1` multiplied by a quantity (line 372). -/
def scalar_mul_type (Rep1 : IntType) (U : IntUnit) : IntUnit :=
  ⟨IntType.common Rep1 U.rep, U.scale⟩

/-- The operator `*` on a bare scalar of type `Rep1` and a quantity (lines 367-377):
`u * s`. -/
def scalar_mul (Rep1 : IntType) (U : IntUnit) (s u : Int) : Option Int :=
  mul_scalar U Rep1 u s

/-- The operator `%` on two quantities (lines 420-427): the raw value of the result, a
quantity of the common type.  As for `/`, a zero divisor and a quotient that is not
representable are undefined. -/
def rem (U1 U2 : IntUnit) (lhs rhs : Int) : Option Int :=
  match common_type U1 U2 with
  | some Cu =>
    match unit.converting U1 Cu lhs, unit.converting U2 Cu rhs with
    | some l, some r =>
      let Cr := IntType.common U1.rep U2.rep
      if Cr.convert r = 0 then none
      else
        match (IntType.promote Cr).arith (Int.tdiv (Cr.convert l) (Cr.convert r)) with
        | some _ => Cu.rep.op (Int.tmod (Cr.convert l) (Cr.convert r))
        | none => none
    | _, _ => none
  | none => none

/-! ## Construction and special values (lines 114-128, 169-178, 215-219) -/

/-- The type `Rep2` of a raw value handed to the direct constructor: an arithmetic type, or
any other type together with whether it converts implicitly to the representation. -/
inductive RawType where
  | arithmetic (r : Rep)
  | other (convertible : Bool)
deriving DecidableEq, Repr

/-- Modelled from the spec: `std::is_convertible<Rep2, rep>` of the standard header
`type_traits`, which is not under src/: arithmetic types convert to one another. -/
def is_convertible : RawType → Bool
  | .arithmetic _ => true
  | .other convertible => convertible

/-- The trait `treat_as_floating_point<Rep2>` (line 111) on the type of a raw value. -/
def RawType.treat_as_floating_point : RawType → Bool
  | .arithmetic r => datasize.treat_as_floating_point r
  | .other _ => false

namespace unit

/-- The enabling condition of the direct constructor `unit(const Rep2& r)` of
`unit<Rep, Scale>` (lines 172-177). -/
def direct_enabled (Rep2 : RawType) (rep : Rep) : Bool :=
  is_convertible Rep2 &&
    (datasize.treat_as_floating_point rep || !Rep2.treat_as_floating_point)

/-- The direct constructor `unit(const Rep2& r)` (lines 169-178) of an integral quantity
type from a raw value of an integral type: `rep_(r)` when enabled. -/
def direct (U : IntUnit) (Rep2 : IntType) (r : Int) : Option Int :=
  if direct_enabled (.arithmetic (.integral Rep2)) (.integral U.rep) then
    some (U.rep.convert r)
  else none

/-- The static assertions of `unit<Rep, std::ratio<N, D>>` (lines 126-128) for a
representation that is not a quantity: `std::ratio<N, D>` is well-formed and its member
`num` is positive. -/
def static_asserts (N D : Int) : Bool :=
  ratio_ok N D && decide (0 < (ratio N D).num)

end unit

namespace unit_values

/-- The member `unit_values<Rep>::zero()` (line 118): `Rep(0)`. -/
def zero (Rep : IntType) : Int := Rep.convert 0

/-- The member `unit_values<Rep>::max()` (line 119): `numeric_limits<Rep>::max()`. -/
def max (Rep : IntType) : Int := Rep.highest

/-- The member `unit_values<Rep>::min()` (line 120): `numeric_limits<Rep>::lowest()`. -/
def min (Rep : IntType) : Int := Rep.lowest

end unit_values

namespace unit

/-- The member `unit::zero()` (line 217): the raw value of `unit(unit_values<rep>::zero())`. -/
def zero (U : IntUnit) : Option Int := direct U U.rep (unit_values.zero U.rep)

/-- The member `unit::min()` (line 218): the raw value of `unit(unit_values<rep>::min())`. -/
def min (U : IntUnit) : Option Int := direct U U.rep (unit_values.min U.rep)

/-- The member `unit::max()` (line 219): the raw value of `unit(unit_values<rep>::max())`. -/
def max (U : IntUnit) : Option Int := direct U U.rep (unit_values.max U.rep)

end unit

/-- Absence of overflow in a binary operator on `a` of type `A` and `b` of type `B`: the
common type is well-formed, both scale factors fit `intmax_t`, and each operand
multiplied by its scale factor fits the intermediate type of its cast and the common
representation. -/
def fitsCommon (A B : IntUnit) (a b : Int) : Prop :=
  (Int.lcm A.scale.den B.scale.den : Int) ≤ INTMAX_MAX ∧
  scaleFactor A.scale (commonUnit A B).scale ≤ INTMAX_MAX ∧
  scaleFactor B.scale (commonUnit A B).scale ≤ INTMAX_MAX ∧
  (castCt (commonUnit A B).rep A.rep).inRange
    (a * scaleFactor A.scale (commonUnit A B).scale) ∧
  (commonUnit A B).rep.inRange (a * scaleFactor A.scale (commonUnit A B).scale) ∧
  (castCt (commonUnit A B).rep B.rep).inRange
    (b * scaleFactor B.scale (commonUnit A B).scale) ∧
  (commonUnit A B).rep.inRange (b * scaleFactor B.scale (commonUnit A B).scale)

/-! ## Lemmas on integral representation types -/

namespace IntType

theorem lowest_nonpos (t : IntType) : t.lowest ≤ 0 := by
  unfold lowest
  split
  · have : (0 : Int) < 2 ^ (t.bits - 1) := by positivity
    omega
  · exact le_refl 0

theorem highest_nonneg (t : IntType) : 0 ≤ t.highest := by
  unfold highest
  split
  · have : (0 : Int) < 2 ^ (t.bits - 1) := by positivity
    omega
  · have : (0 : Int) < 2 ^ t.bits := by positivity
    omega

theorem convert_of_inRange {t : IntType} {x : Int} (h : t.inRange x) : t.convert x = x := by
  simp [convert, h]

theorem arith_of_inRange {t : IntType} {x : Int} (h : t.inRange x) : t.arith x = some x := by
  simp [arith, h]

theorem inRange_zero (t : IntType) : t.inRange 0 :=
  ⟨t.lowest_nonpos, t.highest_nonneg⟩

/-- A value between zero and a representable value is representable. -/
theorem inRange_of_between {t : IntType} {x y : Int} (h : t.inRange x)
    (hy : (0 ≤ y ∧ y ≤ x) ∨ (x ≤ y ∧ y ≤ 0)) : t.inRange y := by
  have h0 := t.lowest_nonpos
  have h1 := t.highest_nonneg
  unfold inRange at *
  omega

end IntType

/-! ## Lemmas on truncating division -/

theorem tdiv_between (x d : Int) (hd : 0 < d) :
    (0 ≤ Int.tdiv x d ∧ Int.tdiv x d ≤ x) ∨ (x ≤ Int.tdiv x d ∧ Int.tdiv x d ≤ 0) := by
  rcases le_or_lt 0 x with hx | hx
  · left
    rw [Int.tdiv_eq_ediv hx hd.le]
    exact ⟨Int.ediv_nonneg hx hd.le, Int.ediv_le_self _ hx⟩
  · right
    obtain ⟨y, rfl⟩ : ∃ y, x = -y := ⟨-x, by simp⟩
    have hy : 0 ≤ y := by omega
    rw [Int.neg_tdiv, Int.tdiv_eq_ediv hy hd.le]
    have h1 := Int.ediv_nonneg hy hd.le
    have h2 := Int.ediv_le_self d hy
    omega

theorem tdiv_mul_between (x d : Int) (hd : 0 < d) :
    (0 ≤ Int.tdiv x d * d ∧ Int.tdiv x d * d ≤ x) ∨
      (x ≤ Int.tdiv x d * d ∧ Int.tdiv x d * d ≤ 0) := by
  rcases le_or_lt 0 x with hx | hx
  · left
    rw [Int.tdiv_eq_ediv hx hd.le]
    exact ⟨mul_nonneg (Int.ediv_nonneg hx hd.le) hd.le, Int.ediv_mul_le _ hd.ne'⟩
  · right
    obtain ⟨y, rfl⟩ : ∃ y, x = -y := ⟨-x, by simp⟩
    have hy : 0 ≤ y := by omega
    rw [Int.neg_tdiv, Int.tdiv_eq_ediv hy hd.le]
    have h1 := mul_nonneg (Int.ediv_nonneg hy hd.le) hd.le
    have h2 := Int.ediv_mul_le y hd.ne'
    constructor <;> linarith

/-- A factor of a product by a positive integer lies between zero and the product. -/
theorem factor_between (v N : Int) (hN : 1 ≤ N) :
    (0 ≤ v ∧ v ≤ v * N) ∨ (v * N ≤ v ∧ v ≤ 0) := by
  rcases le_or_lt 0 v with hv | hv
  · left
    exact ⟨hv, by nlinarith⟩
  · right
    exact ⟨by nlinarith, hv.le⟩

/-! ## Lemmas on compile-time rationals -/

theorem ratio_of_coprime {N D : Int} (hN : 0 < N) (hD : 0 < D) (h : Int.gcd N D = 1) :
    ratio N D = ⟨N, D⟩ := by
  have hN' : ¬ N < 0 := by omega
  have hD' : ¬ D < 0 := by omega
  have hN0 : N ≠ 0 := by omega
  have hD0 : D ≠ 0 := by omega
  simp [ratio, static_abs, static_sign, static_gcd, hN', hD', hN0, hD0, h]

/-- The cross-reduced products computed by `ratio_divide` and by `_no_overflow` are the
numerator and the denominator of the quotient of the two scales in lowest terms. -/
theorem cross_reduce {n1 d1 n2 d2 : Int} (hn1 : 0 < n1) (hd1 : 0 < d1) (hn2 : 0 < n2)
    (hd2 : 0 < d2) (h1 : Int.gcd n1 d1 = 1) (h2 : Int.gcd n2 d2 = 1) :
    0 < Int.tdiv n1 (Int.gcd n1 n2) * Int.tdiv d2 (Int.gcd d1 d2) ∧
    0 < Int.tdiv n2 (Int.gcd n1 n2) * Int.tdiv d1 (Int.gcd d1 d2) ∧
    Int.gcd (Int.tdiv n1 (Int.gcd n1 n2) * Int.tdiv d2 (Int.gcd d1 d2))
      (Int.tdiv n2 (Int.gcd n1 n2) * Int.tdiv d1 (Int.gcd d1 d2)) = 1 ∧
    ((Int.tdiv n1 (Int.gcd n1 n2) * Int.tdiv d2 (Int.gcd d1 d2) : Int) : ℚ) /
      ((Int.tdiv n2 (Int.gcd n1 n2) * Int.tdiv d1 (Int.gcd d1 d2) : Int) : ℚ) =
      ((n1 : ℚ) / d1) / ((n2 : ℚ) / d2) := by
  lift n1 to ℕ using hn1.le
  lift d1 to ℕ using hd1.le
  lift n2 to ℕ using hn2.le
  lift d2 to ℕ using hd2.le
  simp only [Int.gcd_natCast_natCast] at h1 h2 ⊢
  have hn1' : 0 < n1 := by exact_mod_cast hn1
  have hd1' : 0 < d1 := by exact_mod_cast hd1
  have hn2' : 0 < n2 := by exact_mod_cast hn2
  have hd2' : 0 < d2 := by exact_mod_cast hd2
  have hgn : 0 < Nat.gcd n1 n2 := Nat.gcd_pos_of_pos_left _ hn1'
  have hgd : 0 < Nat.gcd d1 d2 := Nat.gcd_pos_of_pos_left _ hd1'
  simp only [← Int.ofNat_tdiv, ← Nat.cast_mul, Int.gcd_natCast_natCast]
  have ea : n1 / Nat.gcd n1 n2 * Nat.gcd n1 n2 = n1 := Nat.div_mul_cancel (Nat.gcd_dvd_left _ _)
  have ec : n2 / Nat.gcd n1 n2 * Nat.gcd n1 n2 = n2 := Nat.div_mul_cancel (Nat.gcd_dvd_right _ _)
  have eb : d1 / Nat.gcd d1 d2 * Nat.gcd d1 d2 = d1 := Nat.div_mul_cancel (Nat.gcd_dvd_left _ _)
  have ed : d2 / Nat.gcd d1 d2 * Nat.gcd d1 d2 = d2 := Nat.div_mul_cancel (Nat.gcd_dvd_right _ _)
  have pa : 0 < n1 / Nat.gcd n1 n2 := Nat.div_pos (Nat.le_of_dvd hn1' (Nat.gcd_dvd_left _ _)) hgn
  have pc : 0 < n2 / Nat.gcd n1 n2 := Nat.div_pos (Nat.le_of_dvd hn2' (Nat.gcd_dvd_right _ _)) hgn
  have pb : 0 < d1 / Nat.gcd d1 d2 := Nat.div_pos (Nat.le_of_dvd hd1' (Nat.gcd_dvd_left _ _)) hgd
  have pd : 0 < d2 / Nat.gcd d1 d2 := Nat.div_pos (Nat.le_of_dvd hd2' (Nat.gcd_dvd_right _ _)) hgd
  have cac : Nat.Coprime (n1 / Nat.gcd n1 n2) (n2 / Nat.gcd n1 n2) :=
    Nat.coprime_div_gcd_div_gcd hgn
  have cbd : Nat.Coprime (d1 / Nat.gcd d1 d2) (d2 / Nat.gcd d1 d2) :=
    Nat.coprime_div_gcd_div_gcd hgd
  have cab : Nat.Coprime (n1 / Nat.gcd n1 n2) (d1 / Nat.gcd d1 d2) :=
    Nat.Coprime.coprime_dvd_left (Nat.div_dvd_of_dvd (Nat.gcd_dvd_left _ _))
      (Nat.Coprime.coprime_dvd_right (Nat.div_dvd_of_dvd (Nat.gcd_dvd_left _ _)) h1)
  have ccd : Nat.Coprime (n2 / Nat.gcd n1 n2) (d2 / Nat.gcd d1 d2) :=
    Nat.Coprime.coprime_dvd_left (Nat.div_dvd_of_dvd (Nat.gcd_dvd_right _ _))
      (Nat.Coprime.coprime_dvd_right (Nat.div_dvd_of_dvd (Nat.gcd_dvd_right _ _)) h2)
  refine ⟨by exact_mod_cast Nat.mul_pos pa pd, by exact_mod_cast Nat.mul_pos pc pb, ?_, ?_⟩
  · exact Nat.Coprime.mul (Nat.Coprime.mul_right cac cab)
      (Nat.Coprime.mul_right ccd.symm cbd.symm)
  · obtain ⟨a, ha⟩ := Nat.gcd_dvd_left n1 n2
    obtain ⟨c, hc⟩ := Nat.gcd_dvd_right n1 n2
    obtain ⟨b, hb⟩ := Nat.gcd_dvd_left d1 d2
    obtain ⟨d, hd⟩ := Nat.gcd_dvd_right d1 d2
    rw [Nat.mul_comm] at ea ec eb ed
    have e1 := Nat.eq_of_mul_eq_mul_left hgn (ea.trans ha)
    have e2 := Nat.eq_of_mul_eq_mul_left hgn (ec.trans hc)
    have e3 := Nat.eq_of_mul_eq_mul_left hgd (eb.trans hb)
    have e4 := Nat.eq_of_mul_eq_mul_left hgd (ed.trans hd)
    simp only [e1, e2, e3, e4] at pa pc pb pd ⊢
    have gn0 : (Nat.gcd n1 n2 : ℚ) ≠ 0 := by exact_mod_cast hgn.ne'
    have gd0 : (Nat.gcd d1 d2 : ℚ) ≠ 0 := by exact_mod_cast hgd.ne'
    have a0 : (a : ℚ) ≠ 0 := by exact_mod_cast pa.ne'
    have c0 : (c : ℚ) ≠ 0 := by exact_mod_cast pc.ne'
    have b0 : (b : ℚ) ≠ 0 := by exact_mod_cast pb.ne'
    have d0 : (d : ℚ) ≠ 0 := by exact_mod_cast pd.ne'
    have ha' : (n1 : ℚ) = (Nat.gcd n1 n2 : ℚ) * a := by exact_mod_cast ha
    have hc' : (n2 : ℚ) = (Nat.gcd n1 n2 : ℚ) * c := by exact_mod_cast hc
    have hb' : (d1 : ℚ) = (Nat.gcd d1 d2 : ℚ) * b := by exact_mod_cast hb
    have hd' : (d2 : ℚ) = (Nat.gcd d1 d2 : ℚ) * d := by exact_mod_cast hd
    simp only [Int.cast_natCast, Nat.cast_mul]
    rw [ha', hc', hb', hd']
    field_simp
    ring

theorem static_abs_eq_abs (x : Int) : static_abs x = |x| := by
  unfold static_abs
  split
  · rw [abs_of_neg (by assumption)]
  · rw [abs_of_nonneg (by omega)]

theorem Ratio.toRat_pos {r : Ratio} (h : r.valid) : 0 < r.toRat := by
  obtain ⟨hn, hd, -⟩ := h
  unfold Ratio.toRat
  have h1 : (0 : ℚ) < r.num := by exact_mod_cast hn
  have h2 : (0 : ℚ) < r.den := by exact_mod_cast hd
  positivity

theorem scaleQuotient_pos {s t : Ratio} (hs : s.valid) (ht : t.valid) :
    0 < scaleQuotient s t :=
  div_pos (Ratio.toRat_pos hs) (Ratio.toRat_pos ht)

/-- The cross-reduced products of two valid scales are the reduced quotient. -/
theorem cross_eq_quotient {s t : Ratio} (hs : s.valid) (ht : t.valid) :
    Int.tdiv s.num (static_gcd s.num t.num) * Int.tdiv t.den (static_gcd s.den t.den) =
      (scaleQuotient s t).num ∧
    Int.tdiv t.num (static_gcd s.num t.num) * Int.tdiv s.den (static_gcd s.den t.den) =
      ((scaleQuotient s t).den : Int) := by
  obtain ⟨hsn, hsd, -, -, hsg⟩ := hs
  obtain ⟨htn, htd, -, -, htg⟩ := ht
  obtain ⟨-, hY, hg, hq⟩ := cross_reduce hsn hsd htn htd hsg htg
  unfold scaleQuotient Ratio.toRat static_gcd
  rw [← hq]
  exact ⟨(Rat.num_div_eq_of_coprime hY hg).symm, (Rat.den_div_eq_of_coprime hY hg).symm⟩

/-- Division of two valid scales: the reduced quotient when both of its members fit
`intmax_t`, a compile-time failure otherwise. -/
theorem ratio_divide_eq {s t : Ratio} (hs : s.valid) (ht : t.valid) :
    ratio_divide s t =
      if (scaleQuotient s t).num ≤ INTMAX_MAX ∧ ((scaleQuotient s t).den : Int) ≤ INTMAX_MAX
      then some ⟨(scaleQuotient s t).num, (scaleQuotient s t).den⟩ else none := by
  obtain ⟨hX, hY⟩ := cross_eq_quotient hs ht
  have hq := scaleQuotient_pos hs ht
  have hnum : 0 < (scaleQuotient s t).num := Rat.num_pos.mpr hq
  have hden : (0 : Int) < (scaleQuotient s t).den := by exact_mod_cast (scaleQuotient s t).den_pos
  have hcop : Int.gcd (scaleQuotient s t).num ((scaleQuotient s t).den : Int) = 1 := by
    have := (scaleQuotient s t).reduced
    simpa [Int.gcd, Nat.Coprime] using this
  have htn : t.num ≠ 0 := ne_of_gt ht.1
  unfold ratio_divide ll_mul
  simp only [htn, if_false, static_abs_eq_abs, ← abs_mul, hX, hY, abs_of_pos hnum,
    abs_of_pos hden]
  by_cases h1 : (scaleQuotient s t).num ≤ INTMAX_MAX
  · by_cases h2 : ((scaleQuotient s t).den : Int) ≤ INTMAX_MAX
    · have hok : ratio_ok (scaleQuotient s t).num ((scaleQuotient s t).den : Int) = true := by
        simp [ratio_ok, static_abs_eq_abs, abs_of_pos hnum, abs_of_pos hden, h1, h2, hden.ne']
      simp [h1, h2, hok, ratio_of_coprime hnum hden hcop]
    · simp [h1, h2]
  · simp [h1]

/-! ## Lemmas on the explicit cast -/

theorem castCt_bits (To From : IntType) : 64 ≤ (castCt To From).bits := by
  unfold castCt IntType.common IntType.promote IntType.intmax_t IntType.int
  generalize (if To = From then To else _) = a
  obtain ⟨sg, b⟩ := a
  by_cases hb : b < 32 <;> cases sg <;> simp [hb] <;> split_ifs <;> simp_all

theorem IntType.inRange_of_wide {t : IntType} (ht : 64 ≤ t.bits) {x : Int} (h0 : 0 ≤ x)
    (h1 : x ≤ INTMAX_MAX) : t.inRange x := by
  have hl := t.lowest_nonpos
  refine ⟨by omega, ?_⟩
  unfold INTMAX_MAX at h1
  unfold IntType.highest
  have e1 : (2 : Int) ^ 63 ≤ 2 ^ (t.bits - 1) :=
    pow_le_pow_right₀ (by norm_num) (by omega)
  have e2 : (2 : Int) ^ 63 ≤ 2 ^ t.bits :=
    pow_le_pow_right₀ (by norm_num) (by omega)
  split <;> omega

/-- A positive compile-time constant converts unchanged into the intermediate type. -/
theorem castCt_constant (To From : IntType) {x : Int} (h0 : 0 ≤ x) (h1 : x ≤ INTMAX_MAX) :
    (castCt To From).convert x = x :=
  IntType.convert_of_inRange (IntType.inRange_of_wide (castCt_bits To From) h0 h1)

/-- The four specialisations of `_unit_cast` on integral representations compute
`trunc(v * N / D)` in the intermediate type when the product does not overflow, and
convert it to the target representation. -/
theorem _unit_cast_int_convert {From To : IntType} {Scale : Ratio} (hN : 1 ≤ Scale.num)
    (hNm : Scale.num ≤ INTMAX_MAX) (hD : 1 ≤ Scale.den) (hDm : Scale.den ≤ INTMAX_MAX)
    (v : Int) (hmul : (castCt To From).inRange (v * Scale.num)) :
    _unit_cast (intOps From To) Scale v =
      some (To.convert (Int.tdiv (v * Scale.num) Scale.den)) := by
  have hv : (castCt To From).inRange v :=
    IntType.inRange_of_between hmul (factor_between v Scale.num hN)
  have hq : (castCt To From).inRange (Int.tdiv (v * Scale.num) Scale.den) :=
    IntType.inRange_of_between hmul (tdiv_between _ _ (by omega))
  have cN := castCt_constant To From (by omega : 0 ≤ Scale.num) hNm
  have cD := castCt_constant To From (by omega : 0 ≤ Scale.den) hDm
  have hD0 : Scale.den ≠ 0 := by omega
  unfold _unit_cast
  by_cases h1 : Scale.num = 1 <;> by_cases h2 : Scale.den = 1
  · simp only [h1, h2, decide_True, mul_one, Int.tdiv_one]
    simp [intOps]
  · simp only [h1, h2, decide_True, decide_False, mul_one] at hq ⊢
    simp [intOps, IntType.convert_of_inRange hv, cD, hD0, IntType.arith_of_inRange hq]
  · simp only [h1, h2, decide_True, decide_False, Int.tdiv_one] at hq ⊢
    simp [intOps, IntType.convert_of_inRange hv, cN, IntType.arith_of_inRange hmul]
  · simp only [h1, h2, decide_False]
    simp [intOps, IntType.convert_of_inRange hv, cN, cD, hD0, IntType.arith_of_inRange hmul,
      IntType.arith_of_inRange hq]

/-- The four specialisations of `_unit_cast` on integral representations compute
`trunc(v * N / D)` when neither the product nor the narrowing overflows. -/
theorem _unit_cast_int {From To : IntType} {Scale : Ratio} (hN : 1 ≤ Scale.num)
    (hNm : Scale.num ≤ INTMAX_MAX) (hD : 1 ≤ Scale.den) (hDm : Scale.den ≤ INTMAX_MAX)
    (v : Int) (hmul : (castCt To From).inRange (v * Scale.num))
    (hres : To.inRange (Int.tdiv (v * Scale.num) Scale.den)) :
    _unit_cast (intOps From To) Scale v = some (Int.tdiv (v * Scale.num) Scale.den) := by
  rw [_unit_cast_int_convert hN hNm hD hDm v hmul, IntType.convert_of_inRange hres]

theorem IntType.common_comm (a b : IntType) : IntType.common a b = IntType.common b a := by
  unfold IntType.common
  by_cases h : a = b
  · subst h; rfl
  · have h' : ¬ b = a := fun e => h e.symm
    simp only [h, h', if_false]
    obtain ⟨sa, ba⟩ := IntType.promote a
    obtain ⟨sb, bb⟩ := IntType.promote b
    cases sa <;> cases sb <;> simp [max_comm]

theorem castCt_comm (a b : IntType) : castCt a b = castCt b a := by
  unfold castCt
  rw [IntType.common_comm a b]

/-- The explicit cast between integral quantity types whose scale ratio in lowest terms is
`N / D`: the result is `trunc(v * N / D)` when nothing overflows. -/
theorem IntUnit.unit_cast_of_quotient {FromUnit ToUnit : IntUnit} (hF : FromUnit.scale.valid)
    (hT : ToUnit.scale.valid) {N D : Int}
    (hN : (scaleQuotient FromUnit.scale ToUnit.scale).num = N)
    (hD : ((scaleQuotient FromUnit.scale ToUnit.scale).den : Int) = D)
    (hNm : N ≤ INTMAX_MAX) (hDm : D ≤ INTMAX_MAX) (v : Int)
    (hmul : (castCt ToUnit.rep FromUnit.rep).inRange (v * N))
    (hres : ToUnit.rep.inRange (Int.tdiv (v * N) D)) :
    ratio_divide FromUnit.scale ToUnit.scale = some ⟨N, D⟩ ∧
    FromUnit.unit_cast ToUnit v = some (Int.tdiv (v * N) D) := by
  have hr := ratio_divide_eq hF hT
  rw [hN, hD, if_pos ⟨hNm, hDm⟩] at hr
  refine ⟨hr, ?_⟩
  have hq := scaleQuotient_pos hF hT
  have hnum : 0 < N := hN ▸ Rat.num_pos.mpr hq
  have hden : (0 : Int) < D := by
    rw [← hD]
    exact_mod_cast (scaleQuotient FromUnit.scale ToUnit.scale).den_pos
  unfold IntUnit.unit_cast datasize.unit_cast
  rw [hr]
  exact @_unit_cast_int FromUnit.rep ToUnit.rep ⟨N, D⟩ hnum hNm hden hDm v hmul hres

/-! ## The explicit cast computes the truncated scaled value -/

/-- C1: for integral source and target quantity types with valid scales whose ratio
`(N, D)` in lowest terms fits `intmax_t`, and every source raw value `v` whose product
`v * N` fits the intermediate type and whose result fits the target representation,
`unit_cast` selects its specialisation on the reduced pair `(N, D)` and returns
`trunc(v * N / D)`, truncation being toward zero; the specialisations for `N == 1` and
`D == 1` (the value itself), `N == 1` (`v / D`) and `D == 1` (`v * N`) agree with that
formula, the remaining one being the formula itself. -/
theorem unit_cast_eq_trunc (FromUnit ToUnit : IntUnit) (hF : FromUnit.scale.valid)
    (hT : ToUnit.scale.valid)
    (hN : (scaleQuotient FromUnit.scale ToUnit.scale).num ≤ INTMAX_MAX)
    (hD : ((scaleQuotient FromUnit.scale ToUnit.scale).den : Int) ≤ INTMAX_MAX) (v : Int)
    (hmul : (castCt ToUnit.rep FromUnit.rep).inRange
      (v * (scaleQuotient FromUnit.scale ToUnit.scale).num))
    (hres : ToUnit.rep.inRange
      (Int.tdiv (v * (scaleQuotient FromUnit.scale ToUnit.scale).num)
        (scaleQuotient FromUnit.scale ToUnit.scale).den)) :
    ratio_divide FromUnit.scale ToUnit.scale =
      some ⟨(scaleQuotient FromUnit.scale ToUnit.scale).num,
        (scaleQuotient FromUnit.scale ToUnit.scale).den⟩ ∧
    FromUnit.unit_cast ToUnit v =
      some (Int.tdiv (v * (scaleQuotient FromUnit.scale ToUnit.scale).num)
        (scaleQuotient FromUnit.scale ToUnit.scale).den) ∧
    ((scaleQuotient FromUnit.scale ToUnit.scale).num = 1 →
      (scaleQuotient FromUnit.scale ToUnit.scale).den = 1 →
      FromUnit.unit_cast ToUnit v = some v) ∧
    ((scaleQuotient FromUnit.scale ToUnit.scale).num = 1 →
      (scaleQuotient FromUnit.scale ToUnit.scale).den ≠ 1 →
      FromUnit.unit_cast ToUnit v =
        some (Int.tdiv v (scaleQuotient FromUnit.scale ToUnit.scale).den)) ∧
    ((scaleQuotient FromUnit.scale ToUnit.scale).num ≠ 1 →
      (scaleQuotient FromUnit.scale ToUnit.scale).den = 1 →
      FromUnit.unit_cast ToUnit v =
        some (v * (scaleQuotient FromUnit.scale ToUnit.scale).num)) := by
  obtain ⟨hr, h⟩ := IntUnit.unit_cast_of_quotient hF hT rfl rfl hN hD v hmul hres
  refine ⟨hr, h, ?_, ?_, ?_⟩
  · intro hn hd
    rw [h, hn, hd]
    simp
  · intro hn _
    rw [h, hn, mul_one]
  · intro _ hd
    rw [h, hd]
    simp

/-- Witness for C1: casting the raw value `-7` from scale `3/2` to scale `5/7` (ratio
`21/10`, the multiply-then-divide case) yields `trunc(-147 / 10) = -14`. -/
theorem unit_cast_eq_trunc_witness :
    IntUnit.unit_cast ⟨IntType.int, ⟨3, 2⟩⟩ ⟨IntType.int, ⟨5, 7⟩⟩ (-7) = some (-14) := by
  have hn : (scaleQuotient ⟨3, 2⟩ ⟨5, 7⟩).num = 21 := by
    norm_num [scaleQuotient, Ratio.toRat]
  have hd : (scaleQuotient ⟨3, 2⟩ ⟨5, 7⟩).den = 10 := by
    norm_num [scaleQuotient, Ratio.toRat]
  have h := (unit_cast_eq_trunc ⟨IntType.int, ⟨3, 2⟩⟩ ⟨IntType.int, ⟨5, 7⟩⟩ (by decide)
    (by decide) (by simp only [hn]; decide) (by simp only [hd]; decide) (-7)
    (by simp only [hn]; decide) (by simp only [hn, hd]; decide)).2.1
  simp only [hn, hd] at h
  exact h

/-! ## Identity cast -/

theorem ratio_divide_self {s : Ratio} (hs : s.valid) : ratio_divide s s = some ⟨1, 1⟩ := by
  have h1 : scaleQuotient s s = 1 := div_self (ne_of_gt (Ratio.toRat_pos hs))
  rw [ratio_divide_eq hs hs, h1]
  simp [INTMAX_MAX]

/-- C2: for every valid scale, the ratio of a quantity type with itself is `1/1`, so
`unit_cast` to the same type selects the specialisation without arithmetic: whatever the
representation and its operations, the result is `static_cast<rep>(fu.count())`, the raw
value converted to its own type; for every integral representation that is the raw
value itself. -/
theorem unit_cast_same_type (s : Ratio) (hs : s.valid) :
    ratio_divide s s = some ⟨1, 1⟩ ∧
    (∀ (Rep Ct : Type) (ops : CastOps Rep Rep Ct) (x : Rep),
      unit_cast ops s s x = some (ops.toRep x)) ∧
    (∀ (rep : IntType) (x : Int), rep.inRange x →
      IntUnit.unit_cast ⟨rep, s⟩ ⟨rep, s⟩ x = some x) := by
  have h := ratio_divide_self hs
  refine ⟨h, ?_, ?_⟩
  · intro Rep Ct ops x
    simp [unit_cast, h, _unit_cast]
  · intro rep x hx
    simp [IntUnit.unit_cast, unit_cast, h, _unit_cast, intOps, IntType.convert_of_inRange hx]

/-- Witness for C2: `unit_cast<i_megabytes>(i_megabytes(5))` has raw value `5`. -/
theorem unit_cast_same_type_witness : i_megabytes.unit_cast i_megabytes 5 = some 5 :=
  (unit_cast_same_type i_megabytes.scale (by decide)).2.2 IntType.long_long 5 (by decide)

/-! ## Round trip through a coarser unit -/

/-- The scale ratio towards a unit `k` times coarser is `1 / k` in lowest terms. -/
theorem scaleQuotient_to_coarser {a b : Ratio} (ha : a.valid) {k : Int} (hk : 1 ≤ k)
    (h : b.toRat = (k : ℚ) * a.toRat) :
    (scaleQuotient a b).num = 1 ∧ ((scaleQuotient a b).den : Int) = k := by
  have ha0 : a.toRat ≠ 0 := ne_of_gt (Ratio.toRat_pos ha)
  have hk0 : (k : ℚ) ≠ 0 := by
    have : (0 : ℚ) < k := by exact_mod_cast (by omega : 0 < k)
    exact ne_of_gt this
  have e : scaleQuotient a b = ((1 : Int) : ℚ) / ((k : Int) : ℚ) := by
    unfold scaleQuotient
    rw [h]
    field_simp
    ring
  rw [e]
  exact ⟨Rat.num_div_eq_of_coprime (by omega) (by simp),
    Rat.den_div_eq_of_coprime (by omega) (by simp)⟩

/-- The scale ratio towards a unit `k` times finer is `k / 1` in lowest terms. -/
theorem scaleQuotient_to_finer {a b : Ratio} (ha : a.valid) {k : Int}
    (h : b.toRat = (k : ℚ) * a.toRat) :
    (scaleQuotient b a).num = k ∧ ((scaleQuotient b a).den : Int) = 1 := by
  have ha0 : a.toRat ≠ 0 := ne_of_gt (Ratio.toRat_pos ha)
  have e : scaleQuotient b a = ((k : Int) : ℚ) := by
    unfold scaleQuotient
    rw [h]
    field_simp
  rw [e]
  simp

/-- Counterexample for C3: the scale of `i_megabytes` is `1024` times the scale of
`i_kilobytes`, yet casting `i_kilobytes(1)` to `i_megabytes` and back yields raw value `0`,
not `1`. -/
theorem roundtrip_through_coarser_counterexample :
    i_megabytes.scale.toRat = 1024 * i_kilobytes.scale.toRat ∧
    i_kilobytes.unit_cast i_megabytes 1 = some 0 ∧
    i_megabytes.unit_cast i_kilobytes 0 = some 0 ∧
    (i_kilobytes.unit_cast i_megabytes 1).bind (i_megabytes.unit_cast i_kilobytes) ≠ some 1 := by
  refine ⟨?_, by decide, by decide, by decide⟩
  norm_num [Ratio.toRat, i_megabytes, i_kilobytes, ratio, static_abs, static_sign, static_gcd]

/-- C3 (amended): when the scale of `B` is `k` times the scale of `A` for an integer
`k >= 1`, casting a raw value `v` of `A` to `B` and back, absent overflow, yields
`trunc(v / k) * k`; the round trip reproduces `v` exactly if and only if `v` is a
multiple of `k`. -/
theorem roundtrip_through_coarser (A B : IntUnit) (hA : A.scale.valid) (hB : B.scale.valid)
    (k : Int) (hk : 1 ≤ k) (hkm : k ≤ INTMAX_MAX)
    (hscale : B.scale.toRat = (k : ℚ) * A.scale.toRat) (v : Int)
    (hv : A.rep.inRange v) (hct : (castCt B.rep A.rep).inRange v)
    (hres : B.rep.inRange (Int.tdiv v k)) :
    (A.unit_cast B v).bind (B.unit_cast A) = some (Int.tdiv v k * k) ∧
    ((A.unit_cast B v).bind (B.unit_cast A) = some v ↔ k ∣ v) := by
  obtain ⟨n1, d1⟩ := scaleQuotient_to_coarser hA hk hscale
  obtain ⟨n2, d2⟩ := scaleQuotient_to_finer hA hscale
  have h1 := (IntUnit.unit_cast_of_quotient hA hB n1 d1 (by unfold INTMAX_MAX; norm_num) hkm v
    (by rwa [mul_one]) (by rwa [mul_one])).2
  have hback := tdiv_mul_between v k (by omega)
  have h2 := (IntUnit.unit_cast_of_quotient hB hA n2 d2 hkm (by unfold INTMAX_MAX; norm_num)
    (Int.tdiv v k) (by rw [castCt_comm]; exact IntType.inRange_of_between hct hback)
    (by rw [Int.tdiv_one]; exact IntType.inRange_of_between hv hback)).2
  rw [mul_one] at h1
  rw [Int.tdiv_one] at h2
  have h : (A.unit_cast B v).bind (B.unit_cast A) = some (Int.tdiv v k * k) := by
    rw [h1]
    exact h2
  refine ⟨h, ?_⟩
  rw [h]
  constructor
  · intro e
    exact Dvd.intro_left _ (Option.some.inj e)
  · intro hdvd
    rw [Int.tdiv_mul_cancel hdvd]

/-- Witness for C3 (amended): `i_kilobytes(2500)` cast to `i_megabytes` and back is
`trunc(2500 / 1024) * 1024`. -/
theorem roundtrip_through_coarser_witness :
    (i_kilobytes.unit_cast i_megabytes 2500).bind (i_megabytes.unit_cast i_kilobytes) =
      some (Int.tdiv 2500 1024 * 1024) :=
  (roundtrip_through_coarser i_kilobytes i_megabytes (by decide) (by decide) 1024 (by decide)
    (by decide)
    (by norm_num [Ratio.toRat, i_megabytes, i_kilobytes, ratio, static_abs, static_sign,
      static_gcd])
    2500 (by decide) (by decide) (by decide)).1

/-! ## The implicit-conversion guard -/

theorem tdiv_gcd_pos {a b : Int} (ha : 0 < a) : 0 < Int.tdiv a (Int.gcd a b) ∧
    0 < Int.tdiv a (Int.gcd b a) := by
  have key : ∀ g : Nat, (g : Int) ∣ a → 0 < Int.tdiv a g := by
    intro g hg
    have hg0 : (0 : Int) < g := by
      rcases Nat.eq_zero_or_pos g with h | h
      · subst h
        simp at hg
        omega
      · exact_mod_cast h
    rw [Int.tdiv_eq_ediv ha.le hg0.le]
    exact Int.ediv_pos_of_pos_of_dvd ha hg0.le hg
  exact ⟨key _ Int.gcd_dvd_left, key _ Int.gcd_dvd_right⟩

/-- The member `_no_overflow::value` holds exactly when both members of the reduced
quotient of the two scales fit `intmax_t`. -/
theorem _no_overflow_value_iff {s t : Ratio} (hs : s.valid) (ht : t.valid) :
    unit._no_overflow_value s t = true ↔
      (scaleQuotient s t).num ≤ INTMAX_MAX ∧ ((scaleQuotient s t).den : Int) ≤ INTMAX_MAX := by
  obtain ⟨hX, hY⟩ := cross_eq_quotient hs ht
  have p1 := (tdiv_gcd_pos (b := t.num) hs.1).1
  have p2 := (tdiv_gcd_pos (b := s.num) ht.1).2
  have p3 := (tdiv_gcd_pos (b := t.den) hs.2.1).1
  have p4 := (tdiv_gcd_pos (b := s.den) ht.2.1).2
  have hmax : (-((-(2 ^ 63)) + 1) : Int) = INTMAX_MAX := by unfold INTMAX_MAX; norm_num
  have hm0 : (0 : Int) ≤ INTMAX_MAX := by unfold INTMAX_MAX; norm_num
  unfold unit._no_overflow_value
  simp only [Bool.and_eq_true, decide_eq_true_eq, hmax]
  unfold static_gcd at hX hY ⊢
  rw [Int.tdiv_eq_ediv hm0 p4.le, Int.tdiv_eq_ediv hm0 p3.le, Int.le_ediv_iff_mul_le p4,
    Int.le_ediv_iff_mul_le p3, hX, hY]

/-- The member `_no_overflow::type` is the reduced quotient of the two scales when
`_no_overflow::value` holds, and `ratio<1, 1>` otherwise. -/
theorem _no_overflow_type_eq {s t : Ratio} (hs : s.valid) (ht : t.valid) :
    unit._no_overflow_type s t =
      if unit._no_overflow_value s t = true
      then ⟨(scaleQuotient s t).num, (scaleQuotient s t).den⟩ else ⟨1, 1⟩ := by
  obtain ⟨hX, hY⟩ := cross_eq_quotient hs ht
  have hq := scaleQuotient_pos hs ht
  have hnum : 0 < (scaleQuotient s t).num := Rat.num_pos.mpr hq
  have hden : (0 : Int) < (scaleQuotient s t).den := by exact_mod_cast (scaleQuotient s t).den_pos
  have hcop : Int.gcd (scaleQuotient s t).num ((scaleQuotient s t).den : Int) = 1 := by
    have := (scaleQuotient s t).reduced
    simpa [Int.gcd, Nat.Coprime] using this
  unfold unit._no_overflow_type
  by_cases hv : unit._no_overflow_value s t = true
  · simp only [hv, Bool.not_true, unit._mul, if_true, Bool.false_eq_true, if_false, hX, hY]
    exact ratio_of_coprime hnum hden hcop
  · simp only [hv, Bool.not_eq_true] at hv ⊢
    simp only [hv, Bool.not_false, unit._mul, if_true, Bool.false_eq_true, if_false]
    exact ratio_of_coprime (by norm_num) (by norm_num) (by decide)

/-- The enabling condition of the converting constructor in the words of the
specification. -/
theorem converting_enabled_spec {Source Target : UnitType} (hS : Source.scale.valid)
    (hT : Target.scale.valid) :
    unit.converting_enabled Source Target = true ↔
      (ratio_divide Source.scale Target.scale).isSome = true ∧
      (treat_as_floating_point Target.rep = true ∨
        ((scaleQuotient Source.scale Target.scale).den = 1 ∧
          treat_as_floating_point Source.rep = false)) := by
  have hv := _no_overflow_value_iff hS hT
  have hty := _no_overflow_type_eq hS hT
  have hr := ratio_divide_eq hS hT
  unfold unit.converting_enabled
  by_cases h : unit._no_overflow_value Source.scale Target.scale = true
  · have hfit := hv.mp h
    rw [if_pos hfit] at hr
    rw [if_pos h] at hty
    simp only [h, hty, hr, Bool.true_and, Option.isSome_some, true_and, Bool.or_eq_true,
      Bool.and_eq_true, decide_eq_true_eq, Bool.not_eq_true', Nat.cast_eq_one]
  · have hfit : ¬ _ := fun e => h (hv.mpr e)
    rw [if_neg hfit] at hr
    simp only [Bool.not_eq_true] at h
    simp [h, hr]

/-- Counterexample for C4: for the valid scales `(2^63 - 1)/1` and `1/3` the ratio
overflows; the converting constructor is disabled and the constructor call is rejected,
but the explicit `unit_cast` is not available either: `ratio_divide` is ill-formed and so
is every call of `unit_cast`. -/
theorem converting_enabled_counterexample :
    Ratio.valid ⟨2 ^ 63 - 1, 1⟩ ∧ Ratio.valid ⟨1, 3⟩ ∧
    unit.converting_enabled ⟨.integral IntType.long_long, ⟨2 ^ 63 - 1, 1⟩⟩
      ⟨.integral IntType.long_long, ⟨1, 3⟩⟩ = false ∧
    unit.converting ⟨IntType.long_long, ⟨2 ^ 63 - 1, 1⟩⟩ ⟨IntType.long_long, ⟨1, 3⟩⟩ 1 = none ∧
    ratio_divide ⟨2 ^ 63 - 1, 1⟩ ⟨1, 3⟩ = none ∧
    IntUnit.unit_cast ⟨IntType.long_long, ⟨2 ^ 63 - 1, 1⟩⟩ ⟨IntType.long_long, ⟨1, 3⟩⟩ 1 = none ∧
    IntUnit.unit_cast ⟨IntType.long_long, ⟨2 ^ 63 - 1, 1⟩⟩ ⟨IntType.long_long, ⟨1, 3⟩⟩ 0 = none := by
  decide

/-- C4 (amended): for quantity types with valid scales, the converting constructor of the
target type from the source type is enabled if and only if the ratio of the source scale
to the target scale is computable without overflow and (the target representation is
floating-point or (the denominator of the ratio in lowest terms is exactly 1 and the
source representation is not floating-point)); in every other case the construction is
rejected.  The explicit `unit_cast` is available exactly when the ratio is computable
without overflow: then it is `_unit_cast` on the computed ratio, also where the
constructor is disabled; when the ratio overflows, the constructor is disabled and every
call of `unit_cast` is ill-formed.  Between integral quantity types an enabled constructor
returns the raw value of `unit_cast`. -/
theorem converting_enabled_iff (Source Target : UnitType) (hS : Source.scale.valid)
    (hT : Target.scale.valid) :
    (unit.converting_enabled Source Target = true ↔
      (ratio_divide Source.scale Target.scale).isSome = true ∧
      (treat_as_floating_point Target.rep = true ∨
        ((scaleQuotient Source.scale Target.scale).den = 1 ∧
          treat_as_floating_point Source.rep = false))) ∧
    ((ratio_divide Source.scale Target.scale).isSome = true →
      ∃ Scale : Ratio, ratio_divide Source.scale Target.scale = some Scale ∧
        ∀ (From To Ct : Type) (ops : CastOps From To Ct) (fu : From),
          unit_cast ops Source.scale Target.scale fu = _unit_cast ops Scale fu) ∧
    ((ratio_divide Source.scale Target.scale).isSome = false →
      unit.converting_enabled Source Target = false ∧
        ∀ (From To Ct : Type) (ops : CastOps From To Ct) (fu : From),
          unit_cast ops Source.scale Target.scale fu = none) ∧
    (∀ (s t : IntType) (v : Int), Source.rep = .integral s → Target.rep = .integral t →
      (unit.converting_enabled Source Target = false →
        unit.converting ⟨s, Source.scale⟩ ⟨t, Target.scale⟩ v = none) ∧
      (unit.converting_enabled Source Target = true →
        unit.converting ⟨s, Source.scale⟩ ⟨t, Target.scale⟩ v =
          IntUnit.unit_cast ⟨s, Source.scale⟩ ⟨t, Target.scale⟩ v)) := by
  have hiff := converting_enabled_spec hS hT
  refine ⟨hiff, ?_, ?_, ?_⟩
  · intro hsome
    obtain ⟨Scale, hScale⟩ := Option.isSome_iff_exists.mp hsome
    refine ⟨Scale, hScale, ?_⟩
    intro From To Ct ops fu
    simp only [unit_cast, hScale]
  · intro hnone
    constructor
    · rw [← Bool.not_eq_true, hiff]
      rintro ⟨h, -⟩
      rw [hnone] at h
      exact Bool.noConfusion h
    · intro From To Ct ops fu
      have hn : ratio_divide Source.scale Target.scale = none := by
        cases h : ratio_divide Source.scale Target.scale with
        | none => rfl
        | some r =>
          rw [h] at hnone
          exact Bool.noConfusion hnone
      simp only [unit_cast, hn]
  · intro s t v hs ht
    obtain ⟨srep, sscale⟩ := Source
    obtain ⟨trep, tscale⟩ := Target
    simp only at hs ht
    subst hs ht
    constructor
    · intro hdis
      simp only [unit.converting, IntUnit.toUnitType, hdis, Bool.false_eq_true, if_false]
    · intro hen
      simp only [unit.converting, IntUnit.toUnitType, hen, if_true]

/-- Witness for C4 (amended): `i_megabytes` converts implicitly to `i_kilobytes` (ratio
`1024/1`). -/
theorem converting_enabled_iff_witness :
    (ratio_divide i_megabytes.scale i_kilobytes.scale).isSome = true ∧
    (treat_as_floating_point i_kilobytes.toUnitType.rep = true ∨
      ((scaleQuotient i_megabytes.scale i_kilobytes.scale).den = 1 ∧
        treat_as_floating_point i_megabytes.toUnitType.rep = false)) :=
  (converting_enabled_iff i_megabytes.toUnitType i_kilobytes.toUnitType (by decide)
    (by decide)).1.mp (by decide)

/-! ## The guard passes exactly for lossless integral conversions -/

/-- Between integral quantity types the guard is `_no_overflow::value` together with a
reduced denominator equal to 1. -/
theorem converting_enabled_int {S T : IntUnit} (hS : S.scale.valid) (hT : T.scale.valid) :
    unit.converting_enabled S.toUnitType T.toUnitType = true ↔
      ((scaleQuotient S.scale T.scale).num ≤ INTMAX_MAX ∧
        ((scaleQuotient S.scale T.scale).den : Int) ≤ INTMAX_MAX) ∧
      (scaleQuotient S.scale T.scale).den = 1 := by
  have hv := _no_overflow_value_iff hS hT
  have hty := _no_overflow_type_eq hS hT
  unfold unit.converting_enabled IntUnit.toUnitType treat_as_floating_point
  by_cases h : unit._no_overflow_value S.scale T.scale = true
  · rw [if_pos h] at hty
    simp [h, hty, hv.mp h]
  · have hfit : ¬ _ := fun e => h (hv.mpr e)
    simp only [Bool.not_eq_true] at h
    simp only [h, Bool.false_and, Bool.false_eq_true, false_iff, not_and]
    intro e
    exact absurd e hfit

/-- The magnitude is preserved by scaling the raw value with an integral scale ratio. -/
theorem magnitude_scaled {s t : Ratio} (ht : t.valid) (hden : (scaleQuotient s t).den = 1)
    (v : Int) : magnitude t (v * (scaleQuotient s t).num) = magnitude s v := by
  have ht0 : t.toRat ≠ 0 := ne_of_gt (Ratio.toRat_pos ht)
  have hq : ((scaleQuotient s t).num : ℚ) = s.toRat / t.toRat := by
    have := Rat.num_div_den (scaleQuotient s t)
    rw [hden] at this
    simpa [scaleQuotient] using this
  unfold magnitude
  push_cast
  rw [hq]
  field_simp

/-- An enabled converting constructor between integral quantity types multiplies the raw
value by the integral scale ratio, absent overflow. -/
theorem converting_int {S T : IntUnit} (hS : S.scale.valid) (hT : T.scale.valid)
    (hen : unit.converting_enabled S.toUnitType T.toUnitType = true) (v : Int)
    (hmul : (castCt T.rep S.rep).inRange (v * (scaleQuotient S.scale T.scale).num))
    (hres : T.rep.inRange (v * (scaleQuotient S.scale T.scale).num)) :
    unit.converting S T v = some (v * (scaleQuotient S.scale T.scale).num) := by
  obtain ⟨⟨hN, hD⟩, hden⟩ := (converting_enabled_int hS hT).mp hen
  have h := (IntUnit.unit_cast_of_quotient hS hT rfl rfl hN hD v hmul
    (by rw [hden]; simpa using hres)).2
  unfold unit.converting
  rw [if_pos hen, h, hden]
  simp

/-- C5: for integral source and target quantity types with valid scales whose ratio is
computable without overflow, the guard of the converting constructor passes exactly when
the conversion cannot lose information: if it passes, every raw value `v` whose scaled
value fits the intermediate type and the target representation is converted to a raw value
of the same magnitude; if it fails, the explicit cast of the raw value `1` returns a value
of a different magnitude.  Representations have at least 8 bits. -/
theorem guard_passes_iff_lossless (S T : IntUnit) (hS : S.scale.valid) (hT : T.scale.valid)
    (hbits : 8 ≤ S.rep.bits) (hno : (ratio_divide S.scale T.scale).isSome = true) :
    (unit.converting_enabled S.toUnitType T.toUnitType = true →
      ∀ v : Int,
        (castCt T.rep S.rep).inRange (v * (scaleQuotient S.scale T.scale).num) →
        T.rep.inRange (v * (scaleQuotient S.scale T.scale).num) →
        ∃ r : Int, unit.converting S T v = some r ∧ S.unit_cast T v = some r ∧
          magnitude T.scale r = magnitude S.scale v) ∧
    (unit.converting_enabled S.toUnitType T.toUnitType = false →
      ∃ v r : Int, S.rep.inRange v ∧ S.unit_cast T v = some r ∧
        magnitude T.scale r ≠ magnitude S.scale v) := by
  have hr := ratio_divide_eq hS hT
  have hfit : (scaleQuotient S.scale T.scale).num ≤ INTMAX_MAX ∧
      ((scaleQuotient S.scale T.scale).den : Int) ≤ INTMAX_MAX := by
    by_contra hc
    rw [if_neg hc] at hr
    rw [hr] at hno
    simp at hno
  rw [if_pos hfit] at hr
  have hq := scaleQuotient_pos hS hT
  have hnum : 0 < (scaleQuotient S.scale T.scale).num := Rat.num_pos.mpr hq
  have hden : (0 : Int) < (scaleQuotient S.scale T.scale).den := by
    exact_mod_cast (scaleQuotient S.scale T.scale).den_pos
  constructor
  · intro hen v hmul hres
    have hc := converting_int hS hT hen v hmul hres
    refine ⟨_, hc, ?_, magnitude_scaled hT ((converting_enabled_int hS hT).mp hen).2 v⟩
    unfold unit.converting at hc
    rwa [if_pos hen] at hc
  · intro hdis
    have hd1 : (scaleQuotient S.scale T.scale).den ≠ 1 := by
      intro e
      have := (converting_enabled_int hS hT).mpr ⟨hfit, e⟩
      rw [this] at hdis
      exact Bool.noConfusion hdis
    have hone : (castCt T.rep S.rep).inRange (1 * (scaleQuotient S.scale T.scale).num) := by
      rw [one_mul]
      exact IntType.inRange_of_wide (castCt_bits _ _) hnum.le hfit.1
    have hcast := @_unit_cast_int_convert S.rep T.rep
      ⟨(scaleQuotient S.scale T.scale).num, (scaleQuotient S.scale T.scale).den⟩
      hnum hfit.1 hden hfit.2 1 hone
    refine ⟨1, T.rep.convert (Int.tdiv (1 * (scaleQuotient S.scale T.scale).num)
      (scaleQuotient S.scale T.scale).den), ?_, ?_, ?_⟩
    · have hl := S.rep.lowest_nonpos
      refine ⟨by omega, ?_⟩
      unfold IntType.highest
      have e1 : (2 : Int) ^ 7 ≤ 2 ^ S.rep.bits := pow_le_pow_right₀ (by norm_num) (by omega)
      have e2 : (2 : Int) ^ 7 ≤ 2 ^ (S.rep.bits - 1) :=
        pow_le_pow_right₀ (by norm_num) (by omega)
      split <;> omega
    · unfold IntUnit.unit_cast datasize.unit_cast
      rw [hr]
      exact hcast
    · intro hm
      apply hd1
      have ht0 : T.scale.toRat ≠ 0 := ne_of_gt (Ratio.toRat_pos hT)
      unfold magnitude at hm
      generalize T.rep.convert (Int.tdiv (1 * (scaleQuotient S.scale T.scale).num)
        (scaleQuotient S.scale T.scale).den) = r at hm
      have e : scaleQuotient S.scale T.scale = (r : ℚ) := by
        unfold scaleQuotient
        rw [div_eq_iff ht0]
        push_cast at hm
        linarith
      rw [e]
      exact Rat.den_intCast r

/-- Witness for C5: the guard rejects `i_kilobytes` to `i_megabytes` (ratio `1/1024`), and
some explicit cast between them changes the magnitude. -/
theorem guard_passes_iff_lossless_witness :
    ∃ v r : Int, i_kilobytes.rep.inRange v ∧ i_kilobytes.unit_cast i_megabytes v = some r ∧
      magnitude i_megabytes.scale r ≠ magnitude i_kilobytes.scale v :=
  (guard_passes_iff_lossless i_kilobytes i_megabytes (by decide) (by decide) (by decide)
    (by decide)).2 (by decide)

/-! ## The common type hosts both operands exactly -/

/-- The common scale of two valid scales is the greatest common divisor of the numerators
over the least common multiple of the denominators, when the latter fits `intmax_t`. -/
theorem ratio_gcd_eq {s1 s2 : Ratio} (h1 : s1.valid) (h2 : s2.valid)
    (hl : (Int.lcm s1.den s2.den : Int) ≤ INTMAX_MAX) :
    ratio_gcd s1 s2 = some (commonScale s1 s2) ∧
    Ratio.valid (commonScale s1 s2) := by
  unfold commonScale
  obtain ⟨n1, d1⟩ := s1
  obtain ⟨n2, d2⟩ := s2
  obtain ⟨hn1, hd1, hn1m, -, hg1⟩ := h1
  obtain ⟨hn2, hd2, -, -, hg2⟩ := h2
  simp only at hn1 hd1 hn1m hg1 hn2 hd2 hg2 hl ⊢
  lift n1 to ℕ using hn1.le
  lift d1 to ℕ using hd1.le
  lift n2 to ℕ using hn2.le
  lift d2 to ℕ using hd2.le
  simp only [Int.gcd_natCast_natCast, Int.lcm, Int.natAbs_ofNat] at hg1 hg2 hl ⊢
  have hn1' : 0 < n1 := by exact_mod_cast hn1
  have hd1' : 0 < d1 := by exact_mod_cast hd1
  have hd2' : 0 < d2 := by exact_mod_cast hd2
  have hgpos : 0 < Nat.gcd n1 n2 := Nat.gcd_pos_of_pos_left _ hn1'
  have hlpos : 0 < Nat.lcm d1 d2 := Nat.lcm_pos hd1' hd2'
  have hgle : Nat.gcd n1 n2 ≤ n1 := Nat.gcd_le_left _ hn1'
  have hcop : Nat.Coprime (Nat.gcd n1 n2) (Nat.lcm d1 d2) := by
    have c1 : Nat.Coprime (Nat.gcd n1 n2) d1 :=
      Nat.Coprime.coprime_dvd_left (Nat.gcd_dvd_left _ _) hg1
    have c2 : Nat.Coprime (Nat.gcd n1 n2) d2 :=
      Nat.Coprime.coprime_dvd_left (Nat.gcd_dvd_right _ _) hg2
    exact Nat.Coprime.coprime_dvd_right (Nat.lcm_dvd_mul d1 d2) (Nat.Coprime.mul_right c1 c2)
  have hlcm : Int.tdiv (d1 : Int) (Nat.gcd d1 d2 : Int) * (d2 : Int) = (Nat.lcm d1 d2 : Int) := by
    rw [← Int.ofNat_tdiv, ← Nat.cast_mul]
    congr 1
    rw [Nat.lcm, Nat.mul_comm (d1 / _) d2, ← Nat.mul_div_assoc d2 (Nat.gcd_dvd_left d1 d2),
      Nat.mul_comm d2 d1]
  have hgI : (0 : Int) < Nat.gcd n1 n2 := by exact_mod_cast hgpos
  have hlI : (0 : Int) < Nat.lcm d1 d2 := by exact_mod_cast hlpos
  have hgm : (Nat.gcd n1 n2 : Int) ≤ INTMAX_MAX := by
    have : (Nat.gcd n1 n2 : Int) ≤ n1 := by exact_mod_cast hgle
    omega
  have hcopI : Int.gcd (Nat.gcd n1 n2 : Int) (Nat.lcm d1 d2 : Int) = 1 := by
    rw [Int.gcd_natCast_natCast]
    exact hcop
  constructor
  · unfold ratio_gcd static_lcm static_gcd
    simp only [Int.gcd_natCast_natCast, hlcm, static_abs_eq_abs, abs_of_pos hlI, hl, if_true]
    have hok : ratio_ok (Nat.gcd n1 n2 : Int) (Nat.lcm d1 d2 : Int) = true := by
      simp [ratio_ok, static_abs_eq_abs, abs_of_pos hgI, abs_of_pos hlI, hl, hgm, hlI.ne']
    simp only [hok, if_true, ratio_of_coprime hgI hlI hcopI]
  · exact ⟨hgI, hlI, hgm, hl, hcopI⟩

/-- A valid scale divided by the common scale it shares with another valid scale is a
positive integer: the reduced denominator is 1. -/
theorem scaleQuotient_common_den {s1 s2 : Ratio} (h1 : s1.valid) (h2 : s2.valid) :
    (scaleQuotient s1 (commonScale s1 s2)).den = 1 ∧
    (scaleQuotient s2 (commonScale s1 s2)).den = 1 := by
  unfold commonScale
  have key : ∀ n d g l : Int, 0 < n → 0 < d → 0 < g → g ∣ n → d ∣ l →
      (scaleQuotient ⟨n, d⟩ ⟨g, l⟩).den = 1 := by
    intro n d g l hn hd hg hgn hdl
    obtain ⟨a, rfl⟩ := hgn
    obtain ⟨m, rfl⟩ := hdl
    have hg0 : (g : ℚ) ≠ 0 := by exact_mod_cast hg.ne'
    have hd0 : (d : ℚ) ≠ 0 := by exact_mod_cast hd.ne'
    have e : scaleQuotient ⟨g * a, d⟩ ⟨g, d * m⟩ = ((a * m : Int) : ℚ) := by
      unfold scaleQuotient Ratio.toRat
      push_cast
      field_simp
      ring
    rw [e]
    exact Rat.den_intCast _
  obtain ⟨hn1, hd1, -⟩ := h1
  obtain ⟨hn2, hd2, -⟩ := h2
  have hg : (0 : Int) < Int.gcd s1.num s2.num := by
    exact_mod_cast Int.gcd_pos_of_ne_zero_left _ hn1.ne'
  exact ⟨key _ _ _ _ hn1 hd1 hg Int.gcd_dvd_left (Int.dvd_lcm_left),
    key _ _ _ _ hn2 hd2 hg Int.gcd_dvd_right (Int.dvd_lcm_right)⟩

/-- With a scale ratio of denominator 1, `_unit_cast` is the specialisation without
arithmetic or the multiply-only specialisation; no division takes place. -/
theorem _unit_cast_den_one {From To Ct : Type} (ops : CastOps From To Ct) {Scale : Ratio}
    (h : Scale.den = 1) (fu : From) :
    _unit_cast ops Scale fu =
      if Scale.num = 1 then some (ops.toRep fu)
      else (ops.mul (ops.toCt fu) (ops.constant Scale.num)).map ops.narrow := by
  unfold _unit_cast
  by_cases h1 : Scale.num = 1 <;> simp [h, h1]

/-- C6: for two valid scales whose denominators have a least common multiple within
`intmax_t`, the scale of the common type is `gcd(numerators) / lcm(denominators)`
(`commonScale`); each
operand scale divided by it is a positive integer (reduced denominator 1), so the cast of
either operand into the common type is the identity or the multiply-only specialisation
of `_unit_cast` and never divides. -/
theorem common_scale_hosts_operands (s1 s2 : Ratio) (h1 : s1.valid) (h2 : s2.valid)
    (hl : (Int.lcm s1.den s2.den : Int) ≤ INTMAX_MAX) :
    ratio_gcd s1 s2 = some (commonScale s1 s2) ∧
    ((scaleQuotient s1 (commonScale s1 s2)).den = 1 ∧
      0 < (scaleQuotient s1 (commonScale s1 s2)).num) ∧
    ((scaleQuotient s2 (commonScale s1 s2)).den = 1 ∧
      0 < (scaleQuotient s2 (commonScale s1 s2)).num) ∧
    ∀ Scale : Ratio,
      (ratio_divide s1 (commonScale s1 s2) = some Scale ∨
        ratio_divide s2 (commonScale s1 s2) = some Scale) →
      Scale.den = 1 ∧ 1 ≤ Scale.num ∧
      ∀ (From To Ct : Type) (ops : CastOps From To Ct) (fu : From),
        _unit_cast ops Scale fu =
          if Scale.num = 1 then some (ops.toRep fu)
          else (ops.mul (ops.toCt fu) (ops.constant Scale.num)).map ops.narrow := by
  obtain ⟨hc, hcv⟩ := ratio_gcd_eq h1 h2 hl
  obtain ⟨hd1, hd2⟩ := scaleQuotient_common_den h1 h2
  have hp1 := Rat.num_pos.mpr (scaleQuotient_pos h1 hcv)
  have hp2 := Rat.num_pos.mpr (scaleQuotient_pos h2 hcv)
  refine ⟨hc, ⟨hd1, hp1⟩, ⟨hd2, hp2⟩, ?_⟩
  have key : ∀ s : Ratio, s.valid →
      (scaleQuotient s (commonScale s1 s2)).den = 1 →
      ∀ Scale : Ratio,
        ratio_divide s (commonScale s1 s2) = some Scale →
        Scale.den = 1 ∧ 1 ≤ Scale.num := by
    intro s hs hden Scale hr
    rw [ratio_divide_eq hs hcv] at hr
    split at hr
    · have e := Option.some.inj hr
      have hp := Rat.num_pos.mpr (scaleQuotient_pos hs hcv)
      rw [← e]
      simp only [hden, Nat.cast_one, true_and]
      omega
    · exact absurd hr (by simp)
  intro Scale hS
  have hden : Scale.den = 1 ∧ 1 ≤ Scale.num := by
    rcases hS with h | h
    · exact key s1 h1 hd1 Scale h
    · exact key s2 h2 hd2 Scale h
  exact ⟨hden.1, hden.2, fun From To Ct ops fu => _unit_cast_den_one ops hden.1 fu⟩

/-- Witness for C6: the common scale of `1024/1` and `1/1` is `1/1`. -/
theorem common_scale_hosts_operands_witness :
    ratio_gcd i_megabytes.scale i_kilobytes.scale =
      some (commonScale i_megabytes.scale i_kilobytes.scale) :=
  (common_scale_hosts_operands i_megabytes.scale i_kilobytes.scale (by decide) (by decide)
    (by decide)).1

/-! ## Binary operators through the common type -/

theorem IntType.inRange_promote {t : IntType} {x : Int} (h : t.inRange x) :
    (IntType.promote t).inRange x := by
  unfold IntType.promote
  split
  · rename_i hb
    obtain ⟨sg, b⟩ := t
    simp only at hb
    unfold IntType.inRange IntType.lowest IntType.highest IntType.int at *
    simp only at h ⊢
    have e1 : (2 : Int) ^ (b - 1) ≤ 2 ^ 31 := pow_le_pow_right₀ (by norm_num) (by omega)
    have e2 : (2 : Int) ^ b ≤ 2 ^ 31 := pow_le_pow_right₀ (by norm_num) (by omega)
    cases sg <;> simp at h ⊢ <;> omega
  · exact h

theorem IntType.op_of_inRange {t : IntType} {x : Int} (h : t.inRange x) : t.op x = some x := by
  simp [IntType.op, IntType.arith_of_inRange (IntType.inRange_promote h),
    IntType.convert_of_inRange h]

/-- Both operands of a binary operator convert into the common type by multiplication with
their integral scale factors, absent overflow. -/
theorem operands_in_common {A B : IntUnit} (hA : A.scale.valid) (hB : B.scale.valid)
    (hl : (Int.lcm A.scale.den B.scale.den : Int) ≤ INTMAX_MAX) :
    common_type A B = some (commonUnit A B) ∧
    (∀ a : Int, scaleFactor A.scale (commonUnit A B).scale ≤ INTMAX_MAX →
      (castCt (commonUnit A B).rep A.rep).inRange
        (a * scaleFactor A.scale (commonUnit A B).scale) →
      (commonUnit A B).rep.inRange (a * scaleFactor A.scale (commonUnit A B).scale) →
      unit.converting A (commonUnit A B) a =
        some (a * scaleFactor A.scale (commonUnit A B).scale)) ∧
    (∀ b : Int, scaleFactor B.scale (commonUnit A B).scale ≤ INTMAX_MAX →
      (castCt (commonUnit A B).rep B.rep).inRange
        (b * scaleFactor B.scale (commonUnit A B).scale) →
      (commonUnit A B).rep.inRange (b * scaleFactor B.scale (commonUnit A B).scale) →
      unit.converting B (commonUnit A B) b =
        some (b * scaleFactor B.scale (commonUnit A B).scale)) := by
  obtain ⟨hc, hcv⟩ := ratio_gcd_eq hA hB hl
  obtain ⟨hd1, hd2⟩ := scaleQuotient_common_den hA hB
  have hmax : (1 : Int) ≤ INTMAX_MAX := by unfold INTMAX_MAX; norm_num
  refine ⟨?_, ?_, ?_⟩
  · simp [common_type, hc, commonUnit]
  · intro a hk h1 h2
    have hden : (scaleQuotient A.scale (commonUnit A B).scale).den = 1 := hd1
    have hdm : ((scaleQuotient A.scale (commonUnit A B).scale).den : Int) ≤ INTMAX_MAX := by
      rw [hden]
      exact_mod_cast hmax
    have hen : unit.converting_enabled A.toUnitType (commonUnit A B).toUnitType = true :=
      (@converting_enabled_int A (commonUnit A B) hA hcv).mpr ⟨⟨hk, hdm⟩, hden⟩
    exact @converting_int A (commonUnit A B) hA hcv hen a h1 h2
  · intro b hk h1 h2
    have hden : (scaleQuotient B.scale (commonUnit A B).scale).den = 1 := hd2
    have hdm : ((scaleQuotient B.scale (commonUnit A B).scale).den : Int) ≤ INTMAX_MAX := by
      rw [hden]
      exact_mod_cast hmax
    have hen : unit.converting_enabled B.toUnitType (commonUnit A B).toUnitType = true :=
      (@converting_enabled_int B (commonUnit A B) hB hcv).mpr ⟨⟨hk, hdm⟩, hden⟩
    exact @converting_int B (commonUnit A B) hB hcv hen b h1 h2

/-- The scale factor of an operand into the common type is its scale divided by the common
scale. -/
theorem scaleFactor_common {s1 s2 : Ratio} (h1 : s1.valid) (h2 : s2.valid) :
    (scaleFactor s1 (commonScale s1 s2) : ℚ) = s1.toRat / (commonScale s1 s2).toRat ∧
    (scaleFactor s2 (commonScale s1 s2) : ℚ) = s2.toRat / (commonScale s1 s2).toRat ∧
    0 < scaleFactor s1 (commonScale s1 s2) ∧ 0 < scaleFactor s2 (commonScale s1 s2) := by
  obtain ⟨hd1, hd2⟩ := scaleQuotient_common_den h1 h2
  have e1 := Rat.num_div_den (scaleQuotient s1 (commonScale s1 s2))
  have e2 := Rat.num_div_den (scaleQuotient s2 (commonScale s1 s2))
  rw [hd1] at e1
  rw [hd2] at e2
  have hc0 : (0 : ℚ) < (commonScale s1 s2).toRat := by
    unfold commonScale Ratio.toRat
    have hg : (0 : Int) < Int.gcd s1.num s2.num := by
      exact_mod_cast Int.gcd_pos_of_ne_zero_left _ h1.1.ne'
    have hl : (0 : Int) < Int.lcm s1.den s2.den := by
      exact_mod_cast Nat.pos_of_ne_zero (Int.lcm_ne_zero h1.2.1.ne' h2.2.1.ne')
    have hg' : (0 : ℚ) < ((Int.gcd s1.num s2.num : Int) : ℚ) := by exact_mod_cast hg
    have hl' : (0 : ℚ) < ((Int.lcm s1.den s2.den : Int) : ℚ) := by exact_mod_cast hl
    exact div_pos hg' hl'
  refine ⟨by simpa [scaleFactor, scaleQuotient] using e1,
    by simpa [scaleFactor, scaleQuotient] using e2, ?_, ?_⟩
  · exact Rat.num_pos.mpr (div_pos (Ratio.toRat_pos h1) hc0)
  · exact Rat.num_pos.mpr (div_pos (Ratio.toRat_pos h2) hc0)

/-! ## Addition and subtraction -/

/-- C7: for two integral quantities `a` of type `A` and `b` of type `B` (valid scales, the
common type well-formed), whose conversions into the common type do not overflow, `a + b`
and `a - b` are quantities of the common type with raw value
`a.count * (scaleA / c) + b.count * (scaleB / c)`, respectively with minus, whenever that
value fits the common representation; `c` is the common scale and both `scaleA / c` and
`scaleB / c` are integers. -/
theorem add_sub_raw_value (A B : IntUnit) (hA : A.scale.valid) (hB : B.scale.valid)
    (hl : (Int.lcm A.scale.den B.scale.den : Int) ≤ INTMAX_MAX)
    (hkA : scaleFactor A.scale (commonUnit A B).scale ≤ INTMAX_MAX)
    (hkB : scaleFactor B.scale (commonUnit A B).scale ≤ INTMAX_MAX) (a b : Int)
    (ha : (castCt (commonUnit A B).rep A.rep).inRange
      (a * scaleFactor A.scale (commonUnit A B).scale))
    (ha' : (commonUnit A B).rep.inRange (a * scaleFactor A.scale (commonUnit A B).scale))
    (hb : (castCt (commonUnit A B).rep B.rep).inRange
      (b * scaleFactor B.scale (commonUnit A B).scale))
    (hb' : (commonUnit A B).rep.inRange (b * scaleFactor B.scale (commonUnit A B).scale)) :
    common_type A B = some (commonUnit A B) ∧
    (scaleFactor A.scale (commonUnit A B).scale : ℚ) =
      A.scale.toRat / (commonUnit A B).scale.toRat ∧
    (scaleFactor B.scale (commonUnit A B).scale : ℚ) =
      B.scale.toRat / (commonUnit A B).scale.toRat ∧
    ((commonUnit A B).rep.inRange
        (a * scaleFactor A.scale (commonUnit A B).scale +
          b * scaleFactor B.scale (commonUnit A B).scale) →
      add A B a b =
        some (a * scaleFactor A.scale (commonUnit A B).scale +
          b * scaleFactor B.scale (commonUnit A B).scale)) ∧
    ((commonUnit A B).rep.inRange
        (a * scaleFactor A.scale (commonUnit A B).scale -
          b * scaleFactor B.scale (commonUnit A B).scale) →
      sub A B a b =
        some (a * scaleFactor A.scale (commonUnit A B).scale -
          b * scaleFactor B.scale (commonUnit A B).scale)) := by
  obtain ⟨hct, hca, hcb⟩ := operands_in_common hA hB hl
  obtain ⟨f1, f2, -, -⟩ := scaleFactor_common hA hB
  have hx := hca a hkA ha ha'
  have hy := hcb b hkB hb hb'
  refine ⟨hct, f1, f2, ?_, ?_⟩
  · intro hs
    simp only [add, hct, hx, hy]
    exact IntType.op_of_inRange hs
  · intro hs
    simp only [sub, hct, hx, hy]
    exact IntType.op_of_inRange hs

/-- Witness for C7: `i_megabytes(1) + i_kilobytes(512)` has raw value `1536` in the common
type, which is at the kilobyte scale. -/
theorem add_sub_raw_value_witness :
    common_type i_megabytes i_kilobytes = some i_kilobytes ∧
    add i_megabytes i_kilobytes 1 512 = some 1536 := by
  have fA : scaleFactor i_megabytes.scale (commonUnit i_megabytes i_kilobytes).scale = 1024 := by
    norm_num [scaleFactor, scaleQuotient, Ratio.toRat, commonUnit, commonScale, i_megabytes,
      i_kilobytes, ratio, static_abs, static_sign, static_gcd]
  have fB : scaleFactor i_kilobytes.scale (commonUnit i_megabytes i_kilobytes).scale = 1 := by
    norm_num [scaleFactor, scaleQuotient, Ratio.toRat, commonUnit, commonScale, i_megabytes,
      i_kilobytes, ratio, static_abs, static_sign, static_gcd]
  have h := add_sub_raw_value i_megabytes i_kilobytes (by decide) (by decide) (by decide)
    (by rw [fA]; decide) (by rw [fB]; decide) 1 512 (by rw [fA]; decide) (by rw [fA]; decide)
    (by rw [fB]; decide) (by rw [fB]; decide)
  refine ⟨h.1.trans (by decide), ?_⟩
  have h4 := h.2.2.2.1
  rw [fA, fB] at h4
  exact h4 (by decide)

/-! ## Division of two quantities -/

/-- C8: for two integral quantities `a` of type `A` and `b` of type `B` with `b` non-zero
(valid scales, the common type well-formed, conversions into the common type without
overflow), `a / b` is a bare scalar of the common representation, the truncated quotient
`(a.count * (scaleA / c)) / (b.count * (scaleB / c))` of the raw values in the common
type, whenever that quotient fits the common representation. -/
theorem div_quantities_scalar (A B : IntUnit) (hA : A.scale.valid) (hB : B.scale.valid)
    (hl : (Int.lcm A.scale.den B.scale.den : Int) ≤ INTMAX_MAX)
    (hkA : scaleFactor A.scale (commonUnit A B).scale ≤ INTMAX_MAX)
    (hkB : scaleFactor B.scale (commonUnit A B).scale ≤ INTMAX_MAX) (a b : Int)
    (ha : (castCt (commonUnit A B).rep A.rep).inRange
      (a * scaleFactor A.scale (commonUnit A B).scale))
    (ha' : (commonUnit A B).rep.inRange (a * scaleFactor A.scale (commonUnit A B).scale))
    (hb : (castCt (commonUnit A B).rep B.rep).inRange
      (b * scaleFactor B.scale (commonUnit A B).scale))
    (hb' : (commonUnit A B).rep.inRange (b * scaleFactor B.scale (commonUnit A B).scale))
    (hb0 : b ≠ 0)
    (hq : (commonUnit A B).rep.inRange
      (Int.tdiv (a * scaleFactor A.scale (commonUnit A B).scale)
        (b * scaleFactor B.scale (commonUnit A B).scale))) :
    (scaleFactor A.scale (commonUnit A B).scale : ℚ) =
      A.scale.toRat / (commonUnit A B).scale.toRat ∧
    (scaleFactor B.scale (commonUnit A B).scale : ℚ) =
      B.scale.toRat / (commonUnit A B).scale.toRat ∧
    div A B a b =
      some (Int.tdiv (a * scaleFactor A.scale (commonUnit A B).scale)
        (b * scaleFactor B.scale (commonUnit A B).scale)) := by
  obtain ⟨hct, hca, hcb⟩ := operands_in_common hA hB hl
  obtain ⟨f1, f2, -, p2⟩ := scaleFactor_common hA hB
  have hx := hca a hkA ha ha'
  have hy := hcb b hkB hb hb'
  have hne : b * scaleFactor B.scale (commonUnit A B).scale ≠ 0 :=
    mul_ne_zero hb0 (ne_of_gt p2)
  refine ⟨f1, f2, ?_⟩
  simp only [div, hct, hx, hy, hne, if_false]
  exact IntType.op_of_inRange hq

/-- Witness for C8: `i_gigabytes(2) / i_megabytes(1)` is the scalar `2048`. -/
theorem div_quantities_scalar_witness : div i_gigabytes i_megabytes 2 1 = some 2048 := by
  have fA : scaleFactor i_gigabytes.scale (commonUnit i_gigabytes i_megabytes).scale = 1024 := by
    norm_num [scaleFactor, scaleQuotient, Ratio.toRat, commonUnit, commonScale, i_megabytes,
      i_gigabytes, ratio, static_abs, static_sign, static_gcd]
  have fB : scaleFactor i_megabytes.scale (commonUnit i_gigabytes i_megabytes).scale = 1 := by
    norm_num [scaleFactor, scaleQuotient, Ratio.toRat, commonUnit, commonScale, i_megabytes,
      i_gigabytes, ratio, static_abs, static_sign, static_gcd]
  have h := (div_quantities_scalar i_gigabytes i_megabytes (by decide) (by decide) (by decide)
    (by rw [fA]; decide) (by rw [fB]; decide) 2 1 (by rw [fA]; decide) (by rw [fA]; decide)
    (by rw [fB]; decide) (by rw [fB]; decide) (by decide) (by rw [fA, fB]; decide)).2.2
  rw [fA, fB] at h
  exact h

/-! ## Equality of two quantities -/

theorem magnitude_inj {s : Ratio} (hs : s.valid) {x y : Int} :
    magnitude s x = magnitude s y ↔ x = y := by
  unfold magnitude
  have h0 : s.toRat ≠ 0 := ne_of_gt (Ratio.toRat_pos hs)
  constructor
  · intro h
    exact_mod_cast mul_right_cancel₀ h0 h
  · intro h
    rw [h]

/-- The operator `==` decides equality of the magnitudes, absent overflow. -/
theorem eq_decides_magnitude {A B : IntUnit} (hA : A.scale.valid) (hB : B.scale.valid)
    (hl : (Int.lcm A.scale.den B.scale.den : Int) ≤ INTMAX_MAX)
    (hkA : scaleFactor A.scale (commonUnit A B).scale ≤ INTMAX_MAX)
    (hkB : scaleFactor B.scale (commonUnit A B).scale ≤ INTMAX_MAX) (a b : Int)
    (ha : (castCt (commonUnit A B).rep A.rep).inRange
      (a * scaleFactor A.scale (commonUnit A B).scale))
    (ha' : (commonUnit A B).rep.inRange (a * scaleFactor A.scale (commonUnit A B).scale))
    (hb : (castCt (commonUnit A B).rep B.rep).inRange
      (b * scaleFactor B.scale (commonUnit A B).scale))
    (hb' : (commonUnit A B).rep.inRange (b * scaleFactor B.scale (commonUnit A B).scale)) :
    eq A B a b = some (decide (magnitude A.scale a = magnitude B.scale b)) := by
  unfold eq _unit_eq
  by_cases hAB : A = B
  · subst hAB
    simp only [if_true]
    congr 1
    rw [decide_eq_decide]
    exact (magnitude_inj hA).symm
  · obtain ⟨hct, hca, hcb⟩ := operands_in_common hA hB hl
    obtain ⟨hcs, hcv⟩ := ratio_gcd_eq hA hB hl
    obtain ⟨hd1, hd2⟩ := scaleQuotient_common_den hA hB
    have hx := hca a hkA ha ha'
    have hy := hcb b hkB hb hb'
    simp only [hAB, if_false, hct, hx, hy]
    congr 1
    rw [decide_eq_decide]
    have m1 := magnitude_scaled (s := A.scale) hcv hd1 a
    have m2 := magnitude_scaled (s := B.scale) hcv hd2 b
    rw [← m1, ← m2]
    exact (magnitude_inj hcv).symm

/-- C9: for two integral quantities `a` of type `A` and `b` of type `B` (valid scales, the
common type well-formed, conversions into the common type without overflow), `a == b`
holds if and only if both denote the same magnitude `a.count * scaleA = b.count * scaleB`,
and `a != b` is its negation. -/
theorem eq_iff_same_magnitude (A B : IntUnit) (hA : A.scale.valid) (hB : B.scale.valid)
    (hl : (Int.lcm A.scale.den B.scale.den : Int) ≤ INTMAX_MAX)
    (hkA : scaleFactor A.scale (commonUnit A B).scale ≤ INTMAX_MAX)
    (hkB : scaleFactor B.scale (commonUnit A B).scale ≤ INTMAX_MAX) (a b : Int)
    (ha : (castCt (commonUnit A B).rep A.rep).inRange
      (a * scaleFactor A.scale (commonUnit A B).scale))
    (ha' : (commonUnit A B).rep.inRange (a * scaleFactor A.scale (commonUnit A B).scale))
    (hb : (castCt (commonUnit A B).rep B.rep).inRange
      (b * scaleFactor B.scale (commonUnit A B).scale))
    (hb' : (commonUnit A B).rep.inRange (b * scaleFactor B.scale (commonUnit A B).scale)) :
    (eq A B a b = some true ↔
      (a : ℚ) * A.scale.toRat = (b : ℚ) * B.scale.toRat) ∧
    (eq A B a b = some false ↔
      (a : ℚ) * A.scale.toRat ≠ (b : ℚ) * B.scale.toRat) ∧
    (ne A B a b = some true ↔
      (a : ℚ) * A.scale.toRat ≠ (b : ℚ) * B.scale.toRat) ∧
    (ne A B a b = some false ↔
      (a : ℚ) * A.scale.toRat = (b : ℚ) * B.scale.toRat) := by
  have h := eq_decides_magnitude hA hB hl hkA hkB a b ha ha' hb hb'
  unfold magnitude at h
  unfold ne
  rw [h]
  simp

/-- Witness for C9: `i_kilobytes(1024) == i_megabytes(1)` holds. -/
theorem eq_iff_same_magnitude_witness : eq i_kilobytes i_megabytes 1024 1 = some true := by
  have fA : scaleFactor i_kilobytes.scale (commonUnit i_kilobytes i_megabytes).scale = 1 := by
    norm_num [scaleFactor, scaleQuotient, Ratio.toRat, commonUnit, commonScale, i_megabytes,
      i_kilobytes, ratio, static_abs, static_sign, static_gcd]
  have fB : scaleFactor i_megabytes.scale (commonUnit i_kilobytes i_megabytes).scale = 1024 := by
    norm_num [scaleFactor, scaleQuotient, Ratio.toRat, commonUnit, commonScale, i_megabytes,
      i_kilobytes, ratio, static_abs, static_sign, static_gcd]
  exact (eq_iff_same_magnitude i_kilobytes i_megabytes (by decide) (by decide) (by decide)
    (by rw [fA]; decide) (by rw [fB]; decide) 1024 1 (by rw [fA]; decide) (by rw [fA]; decide)
    (by rw [fB]; decide) (by rw [fB]; decide)).1.mpr
    (by norm_num [Ratio.toRat, i_megabytes, i_kilobytes, ratio, static_abs, static_sign,
      static_gcd])

/-! ## Division by a bare scalar, compared across units -/

/-- The converting constructor from a quantity type to itself keeps the raw value. -/
theorem converting_self {U : IntUnit} (hU : U.scale.valid) {v : Int} (hv : U.rep.inRange v) :
    unit.converting U U v = some v := by
  have h1 : scaleQuotient U.scale U.scale = 1 := div_self (ne_of_gt (Ratio.toRat_pos hU))
  have hen : unit.converting_enabled U.toUnitType U.toUnitType = true := by
    rw [converting_enabled_int hU hU, h1]
    simp [INTMAX_MAX]
  unfold unit.converting
  rw [if_pos hen]
  simp [IntUnit.unit_cast, datasize.unit_cast, ratio_divide_self hU, _unit_cast, intOps,
    IntType.convert_of_inRange hv]

/-- Counterexample for C10: under the fixed-point family, `i_megabytes(1) / 1024` has raw
value `0`, and `i_kilobytes(1) == i_megabytes(1) / 1024` evaluates to false. -/
theorem kilobyte_eq_megabyte_div_counterexample :
    div_scalar i_megabytes IntType.int 1 1024 = some 0 ∧
    (div_scalar i_megabytes IntType.int 1 1024).bind
      (fun x => eq i_kilobytes (div_scalar_type i_megabytes IntType.int) 1 x) = some false := by
  constructor <;> decide

/-- C10 (amended): under the fixed-point family, dividing `i_megabytes(m)` by the bare
scalar `1024` truncates: the result is `i_megabytes(trunc(m / 1024))`, and comparing it with
`i_kilobytes(k)` using `operator==` evaluates to true exactly when
`k = trunc(m / 1024) * 1024`. -/
theorem kilobyte_eq_megabyte_div (m k : Int) (hm : i_megabytes.rep.inRange m)
    (hk : i_kilobytes.rep.inRange k) :
    div_scalar i_megabytes IntType.int m 1024 = some (Int.tdiv m 1024) ∧
    (div_scalar i_megabytes IntType.int m 1024).bind
      (fun x => eq i_kilobytes (div_scalar_type i_megabytes IntType.int) k x) =
      some (decide (k = Int.tdiv m 1024 * 1024)) := by
  have hCu : div_scalar_type i_megabytes IntType.int = i_megabytes := by decide
  have hq : i_megabytes.rep.inRange (Int.tdiv m 1024) :=
    IntType.inRange_of_between hm (tdiv_between m 1024 (by norm_num))
  have hback : i_megabytes.rep.inRange (Int.tdiv m 1024 * 1024) :=
    IntType.inRange_of_between hm (tdiv_mul_between m 1024 (by norm_num))
  have h1 : div_scalar i_megabytes IntType.int m 1024 = some (Int.tdiv m 1024) := by
    unfold div_scalar
    simp only [hCu, converting_self (by decide : i_megabytes.scale.valid) hm]
    have hc : i_megabytes.rep.convert 1024 = 1024 := by decide
    simp only [hc]
    exact IntType.op_of_inRange hq
  have fA : scaleFactor i_kilobytes.scale (commonUnit i_kilobytes i_megabytes).scale = 1 := by
    norm_num [scaleFactor, scaleQuotient, Ratio.toRat, commonUnit, commonScale, i_megabytes,
      i_kilobytes, ratio, static_abs, static_sign, static_gcd]
  have fB : scaleFactor i_megabytes.scale (commonUnit i_kilobytes i_megabytes).scale = 1024 := by
    norm_num [scaleFactor, scaleQuotient, Ratio.toRat, commonUnit, commonScale, i_megabytes,
      i_kilobytes, ratio, static_abs, static_sign, static_gcd]
  have h2 := @eq_decides_magnitude i_kilobytes i_megabytes (by decide) (by decide) (by decide)
    (by rw [fA]; decide) (by rw [fB]; decide) k (Int.tdiv m 1024)
    (by rw [fA, mul_one]; exact hk) (by rw [fA, mul_one]; exact hk)
    (by rw [fB]; exact hback) (by rw [fB]; exact hback)
  refine ⟨h1, ?_⟩
  rw [h1, hCu]
  show eq i_kilobytes i_megabytes k (Int.tdiv m 1024) = _
  rw [h2]
  congr 1
  rw [decide_eq_decide]
  have e1 : i_kilobytes.scale.toRat = 1 := by
    norm_num [Ratio.toRat, i_kilobytes, ratio, static_abs, static_sign, static_gcd]
  have e2 : i_megabytes.scale.toRat = 1024 := by
    norm_num [Ratio.toRat, i_megabytes, ratio, static_abs, static_sign, static_gcd]
  unfold magnitude
  rw [e1, e2, mul_one]
  constructor
  · intro h
    exact_mod_cast h
  · intro h
    exact_mod_cast h

/-- Witness for C10 (amended): `i_kilobytes(1024) == i_megabytes(1024) / 1024` holds. -/
theorem kilobyte_eq_megabyte_div_witness :
    (div_scalar i_megabytes IntType.int 1024 1024).bind
      (fun x => eq i_kilobytes (div_scalar_type i_megabytes IntType.int) 1024 x) =
      some true :=
  (kilobyte_eq_megabyte_div 1024 1024 (by decide) (by decide)).2.trans (by decide)

/-! ## Addition followed by subtraction in one quantity type -/

theorem commonUnit_self {U : IntUnit} (hU : U.scale.valid) : commonUnit U U = U := by
  obtain ⟨rep, ⟨n, d⟩⟩ := U
  obtain ⟨hn, hd, -⟩ := hU
  simp only at hn hd
  have e1 : ((Int.gcd n n : Nat) : Int) = n := by
    rw [Int.gcd_self]
    exact Int.natAbs_of_nonneg hn.le
  have e2 : ((Int.lcm d d : Nat) : Int) = d := by
    rw [Int.lcm_self]
    exact Int.natAbs_of_nonneg hd.le
  simp only [commonUnit, commonScale, IntType.common, e1, e2, if_true]

theorem common_type_self {U : IntUnit} (hU : U.scale.valid) : common_type U U = some U := by
  have hl : (Int.lcm U.scale.den U.scale.den : Int) ≤ INTMAX_MAX := by
    rw [Int.lcm_self, Int.natAbs_of_nonneg hU.2.1.le]
    exact hU.2.2.2.1
  rw [(operands_in_common hU hU hl).1, commonUnit_self hU]

/-- C11: for every integral quantity type with a valid scale and every two values `a` and
`b` of that type whose sum `a.count + b.count` is representable, `a + b` is a quantity of
the same type with raw value `a.count + b.count`, `(a + b) - b` has raw value `a.count`,
and `(a + b) - b == a` evaluates to true. -/
theorem add_then_sub_same_type (U : IntUnit) (hU : U.scale.valid) (a b : Int)
    (ha : U.rep.inRange a) (hb : U.rep.inRange b) (hab : U.rep.inRange (a + b)) :
    common_type U U = some U ∧
    add U U a b = some (a + b) ∧
    sub U U (a + b) b = some a ∧
    ((add U U a b).bind fun s => (sub U U s b).bind fun d => eq U U d a) = some true := by
  have hct := common_type_self hU
  have hadd : add U U a b = some (a + b) := by
    simp only [add, hct, converting_self hU ha, converting_self hU hb]
    exact IntType.op_of_inRange hab
  have hsub : sub U U (a + b) b = some a := by
    simp only [sub, hct, converting_self hU hab, converting_self hU hb, add_sub_cancel_right]
    exact IntType.op_of_inRange ha
  refine ⟨hct, hadd, hsub, ?_⟩
  rw [hadd]
  show (sub U U (a + b) b).bind (fun d => eq U U d a) = some true
  rw [hsub]
  simp [eq, _unit_eq]

/-- Witness for C11: `(i_kilobytes(700) + i_kilobytes(324)) - i_kilobytes(324) ==
i_kilobytes(700)`. -/
theorem add_then_sub_same_type_witness :
    ((add i_kilobytes i_kilobytes 700 324).bind fun s =>
      (sub i_kilobytes i_kilobytes s 324).bind fun d => eq i_kilobytes i_kilobytes d 700) =
      some true :=
  (add_then_sub_same_type i_kilobytes (by decide) 700 324 (by decide) (by decide)
    (by decide)).2.2.2

/-! ## Comparator consistency -/

/-- C12: for all integral quantities `a` of type `A` and `b` of type `B` (the same or
different types): `b > a` is `a < b`, `a <= b` is the negation of `b < a`, and `a >= b` is
the negation of `a < b`, each side undefined or ill-formed exactly when the other is. -/
theorem comparators_consistent (A B : IntUnit) (a b : Int) :
    gt B A b a = lt A B a b ∧
    le A B a b = (lt B A b a).map (fun r => !r) ∧
    ge A B a b = (lt A B a b).map (fun r => !r) ∧
    (lt A B a b = some true ↔ gt B A b a = some true) ∧
    (le A B a b = some true ↔ lt B A b a = some false) ∧
    (ge A B a b = some true ↔ lt A B a b = some false) := by
  refine ⟨rfl, rfl, rfl, Iff.rfl, ?_, ?_⟩
  · unfold le
    cases lt B A b a <;> simp
  · unfold ge
    cases lt A B a b <;> simp

/-! ## The intermediate type of the cast is at least 64 bits wide -/

theorem castCt_of_32_bits {To From : IntType} (hT : To.bits = 32) (hF : From.bits = 32) :
    castCt To From = IntType.intmax_t := by
  obtain ⟨sT, bT⟩ := To
  obtain ⟨sF, bF⟩ := From
  simp only at hT hF
  subst hT hF
  cases sT <;> cases sF <;> decide

/-- C13: for 32-bit integral source and target representations, valid scales whose ratio
`(N, D)` in lowest terms fits `intmax_t`, and every raw value `v` such that `v * N` fits in
64 bits and `trunc(v * N / D)` fits the target representation, the intermediate type of
the cast is the 64-bit `intmax_t` and `unit_cast` returns exactly `trunc(v * N / D)`;
nothing is required of `v * N` with respect to 32 bits. -/
theorem unit_cast_32_bits_via_intmax (FromUnit ToUnit : IntUnit) (hFb : FromUnit.rep.bits = 32)
    (hTb : ToUnit.rep.bits = 32) (hF : FromUnit.scale.valid) (hT : ToUnit.scale.valid)
    (hN : (scaleQuotient FromUnit.scale ToUnit.scale).num ≤ INTMAX_MAX)
    (hD : ((scaleQuotient FromUnit.scale ToUnit.scale).den : Int) ≤ INTMAX_MAX) (v : Int)
    (hmul : IntType.intmax_t.inRange (v * (scaleQuotient FromUnit.scale ToUnit.scale).num))
    (hres : ToUnit.rep.inRange
      (Int.tdiv (v * (scaleQuotient FromUnit.scale ToUnit.scale).num)
        (scaleQuotient FromUnit.scale ToUnit.scale).den)) :
    castCt ToUnit.rep FromUnit.rep = IntType.intmax_t ∧
    FromUnit.unit_cast ToUnit v =
      some (Int.tdiv (v * (scaleQuotient FromUnit.scale ToUnit.scale).num)
        (scaleQuotient FromUnit.scale ToUnit.scale).den) := by
  have hct := castCt_of_32_bits hTb hFb
  refine ⟨hct, ?_⟩
  exact (IntUnit.unit_cast_of_quotient hF hT rfl rfl hN hD v (by rw [hct]; exact hmul) hres).2

/-- Witness for C13: casting the raw value `5000` from scale `1000000/3` to scale `1/1`
between `int` representations yields `trunc(5000000000 / 3)`, although the product
`5000000000` is not an `int`. -/
theorem unit_cast_32_bits_via_intmax_witness :
    IntUnit.unit_cast ⟨IntType.int, ⟨1000000, 3⟩⟩ ⟨IntType.int, ⟨1, 1⟩⟩ 5000 =
      some 1666666666 ∧
    ¬ IntType.int.inRange (5000 * 1000000) := by
  have hn : (scaleQuotient ⟨1000000, 3⟩ ⟨1, 1⟩).num = 1000000 := by
    norm_num [scaleQuotient, Ratio.toRat]
  have hd : (scaleQuotient ⟨1000000, 3⟩ ⟨1, 1⟩).den = 3 := by
    norm_num [scaleQuotient, Ratio.toRat]
  have h := (unit_cast_32_bits_via_intmax ⟨IntType.int, ⟨1000000, 3⟩⟩ ⟨IntType.int, ⟨1, 1⟩⟩
    rfl rfl (by decide) (by decide) (by simp only [hn]; decide) (by simp only [hd]; decide)
    5000 (by simp only [hn]; decide) (by simp only [hn, hd]; decide)).2
  simp only [hn, hd] at h
  exact ⟨h, by decide⟩

/-! ## Direct construction -/

/-- C14: direct construction of a quantity from a raw value of type `Rep2` is accepted if
and only if `Rep2` is convertible to the representation type and (the representation is
floating-point or `Rep2` is not floating-point); constructing an integral quantity from a
floating-point value is rejected, constructing a floating-point quantity from an integer
and an integral quantity from an integer are accepted. -/
theorem direct_enabled_iff (Rep2 : RawType) (rep : Rep) :
    (unit.direct_enabled Rep2 rep = true ↔
      is_convertible Rep2 = true ∧
        (treat_as_floating_point rep = true ∨ Rep2.treat_as_floating_point = false)) ∧
    (∀ t : IntType,
      unit.direct_enabled (.arithmetic .floating) (.integral t) = false) ∧
    (∀ t : IntType,
      unit.direct_enabled (.arithmetic (.integral t)) .floating = true) ∧
    (∀ t u : IntType,
      unit.direct_enabled (.arithmetic (.integral t)) (.integral u) = true) := by
  refine ⟨?_, fun _ => rfl, fun _ => rfl, fun _ _ => rfl⟩
  unfold unit.direct_enabled
  cases is_convertible Rep2 <;> cases treat_as_floating_point rep <;>
    cases Rep2.treat_as_floating_point <;> simp

/-! ## Validity checks of a quantity type -/

/-- Counterexample for C15: the pair `(-1, -1)` has a non-positive numerator and a
non-positive denominator, yet `unit<Rep, ratio<-1, -1>>` passes the static assertions:
`std::ratio<-1, -1>` has the members `num = 1` and `den = 1`. -/
theorem static_asserts_counterexample :
    ((-1 : Int) ≤ 0 ∨ (-1 : Int) ≤ 0) ∧ unit.static_asserts (-1) (-1) = true ∧
      ratio (-1) (-1) = ⟨1, 1⟩ := by
  decide

theorem ratio_num_pos_iff {N D : Int} (hD : D ≠ 0) :
    0 < (ratio N D).num ↔ (0 < N ∧ 0 < D) ∨ (N < 0 ∧ D < 0) := by
  have key : ∀ a b : Int, 0 < a →
      0 < Int.tdiv a (Int.gcd a b) ∧ Int.tdiv (-a) (Int.gcd a b) < 0 := by
    intro a b ha
    have h := (tdiv_gcd_pos (b := b) ha).1
    rw [Int.neg_tdiv]
    exact ⟨h, by omega⟩
  have hnum : (ratio N D).num =
      Int.tdiv (static_sign N * static_sign D * static_abs N)
        (Int.gcd (static_abs N) (static_abs D)) := rfl
  rw [hnum]
  unfold static_sign static_abs
  rcases lt_trichotomy N 0 with hN | hN | hN <;> rcases lt_trichotomy D 0 with hD' | hD' | hD'
  · have h := (key (-N) (-D) (by omega)).1
    rw [if_neg hN.ne, if_pos hN, if_neg hD'.ne, if_pos hD', if_pos hN, if_pos hD',
      show ((-1 : Int) * -1 * -N) = -N by ring]
    exact ⟨fun _ => Or.inr ⟨hN, hD'⟩, fun _ => h⟩
  · exact absurd hD' hD
  · have h := (key (-N) D (by omega)).2
    have hD2 : ¬ D < 0 := by omega
    rw [if_neg hN.ne, if_pos hN, if_neg hD'.ne', if_neg hD2, if_pos hN, if_neg hD2,
      show ((-1 : Int) * 1 * -N) = -(-N) by ring]
    constructor
    · intro h'
      omega
    · rintro (⟨h1, -⟩ | ⟨-, h2⟩) <;> omega
  · subst hN
    simp
  · exact absurd hD' hD
  · subst hN
    simp
  · have h := (key N (-D) hN).2
    have hN2 : ¬ N < 0 := by omega
    rw [if_neg hN.ne', if_neg hN2, if_neg hD'.ne, if_pos hD', if_neg hN2, if_pos hD',
      show ((1 : Int) * -1 * N) = -N by ring]
    constructor
    · intro h'
      omega
    · rintro (⟨-, h2⟩ | ⟨h1, -⟩) <;> omega
  · exact absurd hD' hD
  · have h := (key N D hN).1
    have hN2 : ¬ N < 0 := by omega
    have hD2 : ¬ D < 0 := by omega
    rw [if_neg hN.ne', if_neg hN2, if_neg hD'.ne', if_neg hD2, if_neg hN2, if_neg hD2,
      show ((1 : Int) * 1 * N) = N by ring]
    exact ⟨fun _ => Or.inl ⟨hN, hD'⟩, fun _ => h⟩

/-- C15 (amended): instantiating `unit<Rep, ratio<num, den>>` passes the validity checks
if and only if `num` and `den` are both positive or both negative (the scale `num / den`
is positive) and both have an absolute value within `intmax_t`; in particular it is
rejected whenever `num = 0`, `den = 0`, or `num` and `den` have opposite signs. -/
theorem static_asserts_iff (N D : Int) :
    (unit.static_asserts N D = true ↔
      ((0 < N ∧ 0 < D) ∨ (N < 0 ∧ D < 0)) ∧ |N| ≤ INTMAX_MAX ∧ |D| ≤ INTMAX_MAX) ∧
    (N = 0 ∨ D = 0 ∨ (N < 0 ∧ 0 < D) ∨ (0 < N ∧ D < 0) → unit.static_asserts N D = false) := by
  have main : unit.static_asserts N D = true ↔
      ((0 < N ∧ 0 < D) ∨ (N < 0 ∧ D < 0)) ∧ |N| ≤ INTMAX_MAX ∧ |D| ≤ INTMAX_MAX := by
    unfold unit.static_asserts ratio_ok
    by_cases hD : D = 0
    · subst hD
      simp
    · simp only [Bool.and_eq_true, decide_eq_true_eq, static_abs_eq_abs, ratio_num_pos_iff hD]
      constructor
      · rintro ⟨⟨⟨-, h1⟩, h2⟩, h3⟩
        exact ⟨h3, h1, h2⟩
      · rintro ⟨h3, h1, h2⟩
        exact ⟨⟨⟨hD, h1⟩, h2⟩, h3⟩
  refine ⟨main, ?_⟩
  intro h
  rw [← Bool.not_eq_true, main]
  rintro ⟨hs, -⟩
  omega

/-- Witness for C15 (amended): `unit<Rep, ratio<3, -2>>` is rejected. -/
theorem static_asserts_iff_witness : unit.static_asserts 3 (-2) = false :=
  (static_asserts_iff 3 (-2)).2 (by decide)

/-! ## Special values -/

/-- C16: for every quantity type with a 64-bit signed integral representation,
`zero().count()` is `0`, `min().count()` is `-2^63` and `max().count()` is `2^63 - 1`;
`min() <= zero()`, `zero() <= max()`, and every value `x` of the type satisfies
`min() <= x` and `x <= max()`. -/
theorem special_values_int64 (U : IntUnit) (hrep : U.rep = ⟨true, 64⟩) :
    unit.zero U = some 0 ∧ unit.min U = some (-2 ^ 63) ∧ unit.max U = some (2 ^ 63 - 1) ∧
    le U U (-2 ^ 63) 0 = some true ∧ le U U 0 (2 ^ 63 - 1) = some true ∧
    ∀ x : Int, U.rep.inRange x →
      le U U (-2 ^ 63) x = some true ∧ le U U x (2 ^ 63 - 1) = some true := by
  obtain ⟨rep, scale⟩ := U
  simp only at hrep
  subst hrep
  refine ⟨rfl, rfl, rfl, ?_, ?_, ?_⟩
  · simp [le, lt, _unit_lt]
  · simp [le, lt, _unit_lt]
  · intro x hx
    unfold IntType.inRange IntType.lowest IntType.highest at hx
    simp only [if_true] at hx
    norm_num at hx
    simp only [le, lt, _unit_lt, if_true, Option.map_some', Option.some.injEq,
      Bool.not_eq_true', decide_eq_false_iff_not, not_lt]
    norm_num
    exact hx

/-- Witness for C16: the special values of `i_kilobytes`. -/
theorem special_values_int64_witness :
    unit.zero i_kilobytes = some 0 ∧ unit.min i_kilobytes = some (-2 ^ 63) ∧
      unit.max i_kilobytes = some (2 ^ 63 - 1) :=
  ⟨(special_values_int64 i_kilobytes rfl).1, (special_values_int64 i_kilobytes rfl).2.1,
    (special_values_int64 i_kilobytes rfl).2.2.1⟩

/-! ## Round trip through a finer unit -/

/-- C19: when the scale of `A` is `k` times the scale of `B` for an integer `k >= 1`
within `intmax_t`, and `v` is a raw value of `A` such that `v * k` fits the intermediate
type and the representation of `B`, `unit_cast` from `A` to `B` returns `v * k` and the
cast back to `A` returns `v` exactly; `unit_cast` from `A` to `B` is injective on such
values. -/
theorem roundtrip_through_finer (A B : IntUnit) (hA : A.scale.valid) (hB : B.scale.valid)
    (k : Int) (hk : 1 ≤ k) (hkm : k ≤ INTMAX_MAX)
    (hscale : A.scale.toRat = (k : ℚ) * B.scale.toRat) (v : Int)
    (hv : A.rep.inRange v) (hmul : (castCt B.rep A.rep).inRange (v * k))
    (hres : B.rep.inRange (v * k)) :
    A.unit_cast B v = some (v * k) ∧
    (A.unit_cast B v).bind (B.unit_cast A) = some v ∧
    ∀ w : Int, (castCt B.rep A.rep).inRange (w * k) → B.rep.inRange (w * k) →
      A.unit_cast B w = A.unit_cast B v → w = v := by
  obtain ⟨n1, d1⟩ := scaleQuotient_to_finer hB hscale
  obtain ⟨n2, d2⟩ := scaleQuotient_to_coarser hB hk hscale
  have hone : (1 : Int) ≤ INTMAX_MAX := by unfold INTMAX_MAX; norm_num
  have hk0 : k ≠ 0 := by omega
  have fwd : ∀ w : Int, (castCt B.rep A.rep).inRange (w * k) → B.rep.inRange (w * k) →
      A.unit_cast B w = some (w * k) := by
    intro w h1 h2
    have h := (IntUnit.unit_cast_of_quotient hA hB n1 d1 hkm hone w h1
      (by rw [Int.tdiv_one]; exact h2)).2
    rwa [Int.tdiv_one] at h
  have h1 := fwd v hmul hres
  have h2 := (IntUnit.unit_cast_of_quotient hB hA n2 d2 hone hkm (v * k)
    (by rw [mul_one, castCt_comm]; exact hmul)
    (by rw [mul_one, Int.mul_tdiv_cancel v hk0]; exact hv)).2
  rw [mul_one, Int.mul_tdiv_cancel v hk0] at h2
  refine ⟨h1, ?_, ?_⟩
  · rw [h1]
    exact h2
  · intro w hw1 hw2 e
    rw [fwd w hw1 hw2, h1] at e
    exact mul_right_cancel₀ hk0 (Option.some.inj e)

/-- Witness for C19: `i_megabytes(3)` cast to `i_kilobytes` and back is `i_megabytes(3)`. -/
theorem roundtrip_through_finer_witness :
    i_megabytes.unit_cast i_kilobytes 3 = some (3 * 1024) ∧
    (i_megabytes.unit_cast i_kilobytes 3).bind (i_kilobytes.unit_cast i_megabytes) = some 3 :=
  ⟨(roundtrip_through_finer i_megabytes i_kilobytes (by decide) (by decide) 1024 (by decide)
      (by decide)
      (by norm_num [Ratio.toRat, i_megabytes, i_kilobytes, ratio, static_abs, static_sign,
        static_gcd])
      3 (by decide) (by decide) (by decide)).1,
    (roundtrip_through_finer i_megabytes i_kilobytes (by decide) (by decide) 1024 (by decide)
      (by decide)
      (by norm_num [Ratio.toRat, i_megabytes, i_kilobytes, ratio, static_abs, static_sign,
        static_gcd])
      3 (by decide) (by decide) (by decide)).2.1⟩

/-! ## The overflow test of the converting constructor -/

/-- C20: for valid (positive, reduced) ratios `R1 = n1/d1` and `R2 = n2/d2`,
`_no_overflow<R1, R2>::value` is true if and only if both cross products
`(n1 / gcd(n1, n2)) * (d2 / gcd(d1, d2))` and `(n2 / gcd(n1, n2)) * (d1 / gcd(d1, d2))` are
at most `2^63 - 1`; whenever it is true, `_no_overflow<R1, R2>::type` has exactly these
products as members, they are coprime and their quotient is `R1 / R2`, so the member `den`
is the denominator of `R1 / R2` in lowest terms and `type::den == 1` tests that
denominator. -/
theorem no_overflow_characterisation (R1 R2 : Ratio) (h1 : R1.valid) (h2 : R2.valid) :
    (unit._no_overflow_value R1 R2 = true ↔
      (R1.num / Int.gcd R1.num R2.num) * (R2.den / Int.gcd R1.den R2.den) ≤ 2 ^ 63 - 1 ∧
      (R2.num / Int.gcd R1.num R2.num) * (R1.den / Int.gcd R1.den R2.den) ≤ 2 ^ 63 - 1) ∧
    (unit._no_overflow_value R1 R2 = true →
      unit._no_overflow_type R1 R2 =
        ⟨(R1.num / Int.gcd R1.num R2.num) * (R2.den / Int.gcd R1.den R2.den),
          (R2.num / Int.gcd R1.num R2.num) * (R1.den / Int.gcd R1.den R2.den)⟩ ∧
      Int.gcd (unit._no_overflow_type R1 R2).num (unit._no_overflow_type R1 R2).den = 1 ∧
      ((unit._no_overflow_type R1 R2).num : ℚ) / ((unit._no_overflow_type R1 R2).den : ℚ) =
        R1.toRat / R2.toRat ∧
      (unit._no_overflow_type R1 R2).den = ((scaleQuotient R1 R2).den : Int) ∧
      ((unit._no_overflow_type R1 R2).den = 1 ↔ (scaleQuotient R1 R2).den = 1)) := by
  obtain ⟨hX, hY⟩ := cross_eq_quotient h1 h2
  have hv := _no_overflow_value_iff h1 h2
  have hty := _no_overflow_type_eq h1 h2
  unfold static_gcd at hX hY
  have g1 : (0 : Int) ≤ Int.gcd R1.num R2.num := Int.natCast_nonneg _
  have g2 : (0 : Int) ≤ Int.gcd R1.den R2.den := Int.natCast_nonneg _
  rw [Int.tdiv_eq_ediv h1.1.le g1, Int.tdiv_eq_ediv h2.2.1.le g2] at hX
  rw [Int.tdiv_eq_ediv h2.1.le g1, Int.tdiv_eq_ediv h1.2.1.le g2] at hY
  have hmax : INTMAX_MAX = 2 ^ 63 - 1 := rfl
  rw [hX, hY, ← hmax]
  refine ⟨hv, ?_⟩
  intro hval
  rw [if_pos hval] at hty
  rw [hty]
  refine ⟨rfl, ?_, ?_, rfl, ?_⟩
  · have := (scaleQuotient R1 R2).reduced
    simpa [Int.gcd, Nat.Coprime] using this
  · exact_mod_cast Rat.num_div_den (scaleQuotient R1 R2)
  · simp

/-- Witness for C20: `_no_overflow<ratio<1024>, ratio<1>>::value` is true and the cross
products `1024` and `1` fit. -/
theorem no_overflow_characterisation_witness :
    unit._no_overflow_value i_megabytes.scale i_kilobytes.scale = true ∧
    unit._no_overflow_type i_megabytes.scale i_kilobytes.scale = ⟨1024, 1⟩ :=
  ⟨((no_overflow_characterisation i_megabytes.scale i_kilobytes.scale (by decide)
      (by decide)).1).mpr (by decide),
    (((no_overflow_characterisation i_megabytes.scale i_kilobytes.scale (by decide)
      (by decide)).2 (by decide)).1).trans (by decide)⟩

/-! ## Lemmas on common types and on the remainder -/

theorem IntType.common_self (a : IntType) : IntType.common a a = a := by
  simp [IntType.common]

theorem IntType.common_absorb_right (a b : IntType) :
    IntType.common (IntType.common a b) b = IntType.common a b := by
  obtain ⟨sa, ba⟩ := a
  obtain ⟨sb, bb⟩ := b
  simp only [IntType.common, IntType.promote, IntType.int, IntType.mk.injEq]
  by_cases h1 : ba < 32 <;> by_cases h2 : bb < 32 <;> cases sa <;> cases sb <;>
    simp [h1, h2] <;> split_ifs <;> simp_all <;> omega

theorem IntType.common_absorb_left (a b : IntType) :
    IntType.common (IntType.common a b) a = IntType.common a b := by
  rw [IntType.common_comm a b, IntType.common_absorb_right]

theorem commonScale_absorb (s1 s2 : Ratio) :
    commonScale s2 (commonScale s1 s2) = commonScale s1 s2 ∧
    commonScale (commonScale s1 s2) s1 = commonScale s1 s2 := by
  have lcm_right : ∀ a l : Nat, a ∣ l → Nat.lcm a l = l := fun a l h =>
    Nat.dvd_antisymm (Nat.lcm_dvd h (Nat.dvd_refl l)) (Nat.dvd_lcm_right a l)
  have lcm_left : ∀ a l : Nat, a ∣ l → Nat.lcm l a = l := fun a l h =>
    Nat.dvd_antisymm (Nat.lcm_dvd (Nat.dvd_refl l) h) (Nat.dvd_lcm_left l a)
  unfold commonScale
  simp only [Int.gcd, Int.lcm, Int.natAbs_ofNat, Ratio.mk.injEq, Nat.cast_inj]
  exact ⟨⟨Nat.gcd_eq_right (Nat.gcd_dvd_right _ _), lcm_right _ _ (Nat.dvd_lcm_right _ _)⟩,
    ⟨Nat.gcd_eq_left (Nat.gcd_dvd_left _ _), lcm_left _ _ (Nat.dvd_lcm_left _ _)⟩⟩

theorem scaleFactor_self {c : Ratio} (hc : c.valid) : scaleFactor c c = 1 := by
  have h1 : scaleQuotient c c = 1 := div_self (ne_of_gt (Ratio.toRat_pos hc))
  simp [scaleFactor, h1]

/-- The converting constructor between two integral quantity types of the same scale
converts the raw value to the target representation. -/
theorem converting_same_scale {s : Ratio} (hs : s.valid) (r1 r2 : IntType) {v : Int}
    (hv : r2.inRange v) : unit.converting ⟨r1, s⟩ ⟨r2, s⟩ v = some v := by
  have h1 : scaleQuotient s s = 1 := div_self (ne_of_gt (Ratio.toRat_pos hs))
  have hen : unit.converting_enabled (IntUnit.toUnitType ⟨r1, s⟩)
      (IntUnit.toUnitType ⟨r2, s⟩) = true := by
    rw [@converting_enabled_int ⟨r1, s⟩ ⟨r2, s⟩ hs hs]
    simp only [h1]
    simp [INTMAX_MAX]
  unfold unit.converting
  rw [if_pos hen]
  simp [IntUnit.unit_cast, datasize.unit_cast, ratio_divide_self hs, _unit_cast, intOps,
    IntType.convert_of_inRange hv]

theorem tdiv_mul_between_of_ne (x y : Int) :
    (0 ≤ Int.tdiv x y * y ∧ Int.tdiv x y * y ≤ x) ∨
      (x ≤ Int.tdiv x y * y ∧ Int.tdiv x y * y ≤ 0) := by
  rcases lt_trichotomy y 0 with hy | hy | hy
  · have h := tdiv_mul_between x (-y) (by omega)
    rw [Int.tdiv_neg, neg_mul_neg] at h
    exact h
  · subst hy
    simp
    exact le_total 0 x
  · exact tdiv_mul_between x y hy

theorem tmod_between (x y : Int) :
    (0 ≤ Int.tmod x y ∧ Int.tmod x y ≤ x) ∨ (x ≤ Int.tmod x y ∧ Int.tmod x y ≤ 0) := by
  have h := tdiv_mul_between_of_ne x y
  have e := Int.tmod_add_tdiv' x y
  omega

theorem abs_tmod_lt (x : Int) {y : Int} (hy : y ≠ 0) : |Int.tmod x y| < |y| := by
  have neg_tmod : ∀ a b : Int, Int.tmod (-a) b = -(Int.tmod a b) := by
    intro a b
    rw [Int.tmod_def, Int.tmod_def, Int.neg_tdiv]
    ring
  have pos : ∀ a b : Int, 0 < b → |Int.tmod a b| < b := by
    intro a b hb
    rcases le_or_lt 0 a with ha | ha
    · rw [abs_of_nonneg (Int.tmod_nonneg b ha)]
      exact Int.tmod_lt_of_pos a hb
    · have h1 := Int.tmod_nonneg b (by omega : 0 ≤ -a)
      have h2 := Int.tmod_lt_of_pos (-a) hb
      rw [neg_tmod] at h1 h2
      rw [abs_of_nonpos (by omega)]
      omega
  rcases lt_or_gt_of_ne hy with h | h
  · rw [abs_of_neg h, ← Int.tmod_neg]
    exact pos x (-y) (by omega)
  · rw [abs_of_pos h]
    exact pos x y h

/-! ## Ordering of two quantities -/

theorem magnitude_lt {s : Ratio} (hs : s.valid) {x y : Int} :
    magnitude s x < magnitude s y ↔ x < y := by
  unfold magnitude
  have h0 : (0 : ℚ) < s.toRat := Ratio.toRat_pos hs
  rw [mul_lt_mul_right h0]
  exact Int.cast_lt

theorem commonUnit_comm (A B : IntUnit) : commonUnit A B = commonUnit B A := by
  unfold commonUnit commonScale
  rw [IntType.common_comm, Int.gcd_comm, Int.lcm_comm]

theorem fitsCommon_symm {A B : IntUnit} {a b : Int} (h : fitsCommon A B a b) :
    fitsCommon B A b a := by
  obtain ⟨h1, h2, h3, h4, h5, h6, h7⟩ := h
  unfold fitsCommon
  rw [commonUnit_comm B A, Int.lcm_comm]
  exact ⟨h1, h3, h2, h6, h7, h4, h5⟩

/-- The operator `<` decides the strict order of the magnitudes, absent overflow. -/
theorem lt_decides_magnitude {A B : IntUnit} (hA : A.scale.valid) (hB : B.scale.valid)
    {a b : Int} (h : fitsCommon A B a b) :
    lt A B a b = some (decide (magnitude A.scale a < magnitude B.scale b)) := by
  obtain ⟨hl, hkA, hkB, ha, ha', hb, hb'⟩ := h
  unfold lt _unit_lt
  by_cases hAB : A = B
  · subst hAB
    simp only [if_true]
    congr 1
    rw [decide_eq_decide]
    exact (magnitude_lt hA).symm
  · obtain ⟨hct, hca, hcb⟩ := operands_in_common hA hB hl
    obtain ⟨hcs, hcv⟩ := ratio_gcd_eq hA hB hl
    obtain ⟨hd1, hd2⟩ := scaleQuotient_common_den hA hB
    have hx := hca a hkA ha ha'
    have hy := hcb b hkB hb hb'
    simp only [hAB, if_false, hct, hx, hy]
    congr 1
    rw [decide_eq_decide]
    have m1 := magnitude_scaled (s := A.scale) hcv hd1 a
    have m2 := magnitude_scaled (s := B.scale) hcv hd2 b
    rw [← m1, ← m2]
    exact (magnitude_lt hcv).symm

theorem eq_of_fitsCommon {A B : IntUnit} (hA : A.scale.valid) (hB : B.scale.valid)
    {a b : Int} (h : fitsCommon A B a b) :
    eq A B a b = some (decide (magnitude A.scale a = magnitude B.scale b)) :=
  eq_decides_magnitude hA hB h.1 h.2.1 h.2.2.1 a b h.2.2.2.1 h.2.2.2.2.1 h.2.2.2.2.2.1
    h.2.2.2.2.2.2

/-- C17: for integral quantities `a` of type `A` and `b` of type `B` with valid scales,
whose conversions into the common type do not overflow: `a < b` holds if and only if
`a.count * scaleA < b.count * scaleB` as rationals; exactly one of `a < b`, `a == b`,
`b < a` holds; and for every quantity `c` of a type `C` (conversions again without
overflow), `a < b` and `b < c` imply `a < c`. -/
theorem lt_iff_magnitude_lt (A B : IntUnit) (hA : A.scale.valid) (hB : B.scale.valid)
    (a b : Int) (hab : fitsCommon A B a b) :
    (lt A B a b = some true ↔ (a : ℚ) * A.scale.toRat < (b : ℚ) * B.scale.toRat) ∧
    (lt A B a b = some false ↔ ¬ (a : ℚ) * A.scale.toRat < (b : ℚ) * B.scale.toRat) ∧
    ((lt A B a b = some true ∧ eq A B a b = some false ∧ lt B A b a = some false) ∨
      (lt A B a b = some false ∧ eq A B a b = some true ∧ lt B A b a = some false) ∨
      (lt A B a b = some false ∧ eq A B a b = some false ∧ lt B A b a = some true)) ∧
    (∀ (C : IntUnit) (c : Int), C.scale.valid → fitsCommon B C b c → fitsCommon A C a c →
      lt A B a b = some true → lt B C b c = some true → lt A C a c = some true) := by
  have h1 := lt_decides_magnitude hA hB hab
  have h2 := lt_decides_magnitude hB hA (fitsCommon_symm hab)
  have h3 := eq_of_fitsCommon hA hB hab
  unfold magnitude at h1 h2 h3
  rw [h1, h2, h3]
  simp only [Option.some.injEq, decide_eq_true_eq, decide_eq_false_iff_not, true_and]
  refine ⟨?_, ?_⟩
  · rcases lt_trichotomy ((a : ℚ) * A.scale.toRat) ((b : ℚ) * B.scale.toRat) with h | h | h
    · exact Or.inl ⟨h, ne_of_lt h, not_lt.mpr h.le⟩
    · exact Or.inr (Or.inl ⟨not_lt.mpr h.ge, h, not_lt.mpr h.le⟩)
    · exact Or.inr (Or.inr ⟨not_lt.mpr h.le, ne_of_gt h, h⟩)
  · intro C c hC hbc hac hab' hbc'
    have h4 := lt_decides_magnitude hB hC hbc
    have h5 := lt_decides_magnitude hA hC hac
    unfold magnitude at h4 h5
    rw [h4] at hbc'
    rw [h5]
    simp only [Option.some.injEq, decide_eq_true_eq] at hbc' ⊢
    exact lt_trans hab' hbc'

/-- Witness for C17: `i_kilobytes(1000) < i_megabytes(1)` and
`i_megabytes(1) < i_gigabytes(1)` give `i_kilobytes(1000) < i_gigabytes(1)`. -/
theorem lt_iff_magnitude_lt_witness : lt i_kilobytes i_gigabytes 1000 1 = some true := by
  have f1 : scaleFactor i_kilobytes.scale (commonUnit i_kilobytes i_megabytes).scale = 1 := by
    norm_num [scaleFactor, scaleQuotient, Ratio.toRat, commonUnit, commonScale, i_megabytes,
      i_kilobytes, ratio, static_abs, static_sign, static_gcd]
  have f2 : scaleFactor i_megabytes.scale (commonUnit i_kilobytes i_megabytes).scale = 1024 := by
    norm_num [scaleFactor, scaleQuotient, Ratio.toRat, commonUnit, commonScale, i_megabytes,
      i_kilobytes, ratio, static_abs, static_sign, static_gcd]
  have f3 : scaleFactor i_megabytes.scale (commonUnit i_megabytes i_gigabytes).scale = 1 := by
    norm_num [scaleFactor, scaleQuotient, Ratio.toRat, commonUnit, commonScale, i_megabytes,
      i_gigabytes, ratio, static_abs, static_sign, static_gcd]
  have f4 : scaleFactor i_gigabytes.scale (commonUnit i_megabytes i_gigabytes).scale = 1024 := by
    norm_num [scaleFactor, scaleQuotient, Ratio.toRat, commonUnit, commonScale, i_megabytes,
      i_gigabytes, ratio, static_abs, static_sign, static_gcd]
  have f5 : scaleFactor i_kilobytes.scale (commonUnit i_kilobytes i_gigabytes).scale = 1 := by
    norm_num [scaleFactor, scaleQuotient, Ratio.toRat, commonUnit, commonScale, i_kilobytes,
      i_gigabytes, ratio, static_abs, static_sign, static_gcd]
  have f6 : scaleFactor i_gigabytes.scale (commonUnit i_kilobytes i_gigabytes).scale =
      1048576 := by
    norm_num [scaleFactor, scaleQuotient, Ratio.toRat, commonUnit, commonScale, i_kilobytes,
      i_gigabytes, ratio, static_abs, static_sign, static_gcd]
  exact (lt_iff_magnitude_lt i_kilobytes i_megabytes (by decide) (by decide) 1000 1
    (by unfold fitsCommon; rw [f1, f2]; decide)).2.2.2 i_gigabytes 1 (by decide)
    (by unfold fitsCommon; rw [f3, f4]; decide)
    (by unfold fitsCommon; rw [f5, f6]; decide) (by decide) (by decide)

/-! ## Quotient and remainder of two quantities -/

/-- C18: for integral quantities `a` of type `A` and `b` of type `B` with valid scales,
`b` non-zero, whose conversions into the common type do not overflow and whose quotient is
representable: `a / b` is the truncated quotient and `a % b` the remainder of the raw
values in the common type, `(a / b) * b + (a % b) == a` evaluates to true (with `a / b` a
bare scalar, `(a / b) * b` the scalar multiplication of `b`, and `a % b` a quantity of the
common type), and the raw value of the remainder is smaller in absolute value than the raw
value of `b` converted to the common type. -/
theorem quotient_remainder_consistent (A B : IntUnit) (hA : A.scale.valid)
    (hB : B.scale.valid) (a b : Int) (hab : fitsCommon A B a b) (hb0 : b ≠ 0)
    (hq : (commonUnit A B).rep.inRange
      (Int.tdiv (a * scaleFactor A.scale (commonUnit A B).scale)
        (b * scaleFactor B.scale (commonUnit A B).scale))) :
    div A B a b =
      some (Int.tdiv (a * scaleFactor A.scale (commonUnit A B).scale)
        (b * scaleFactor B.scale (commonUnit A B).scale)) ∧
    rem A B a b =
      some (Int.tmod (a * scaleFactor A.scale (commonUnit A B).scale)
        (b * scaleFactor B.scale (commonUnit A B).scale)) ∧
    ((div A B a b).bind fun q =>
      (scalar_mul (IntType.common A.rep B.rep) B q b).bind fun p =>
        (rem A B a b).bind fun r =>
          (add (scalar_mul_type (IntType.common A.rep B.rep) B) (commonUnit A B) p r).bind
            fun s =>
              eq (commonUnit (scalar_mul_type (IntType.common A.rep B.rep) B)
                (commonUnit A B)) A s a) = some true ∧
    |Int.tmod (a * scaleFactor A.scale (commonUnit A B).scale)
        (b * scaleFactor B.scale (commonUnit A B).scale)| <
      |b * scaleFactor B.scale (commonUnit A B).scale| := by
  obtain ⟨hl, hkA, hkB, hxa, hx, hyb, hy⟩ := hab
  obtain ⟨hct, hca, hcb⟩ := operands_in_common hA hB hl
  obtain ⟨-, hcv⟩ := ratio_gcd_eq hA hB hl
  obtain ⟨hd1, -⟩ := scaleQuotient_common_den hA hB
  obtain ⟨-, -, -, pkB⟩ := scaleFactor_common hA hB
  have hx' := hca a hkA hxa hx
  have hy' := hcb b hkB hyb hy
  -- abbreviations
  generalize hkAdef : scaleFactor A.scale (commonUnit A B).scale = kA at *
  generalize hkBdef : scaleFactor B.scale (commonUnit A B).scale = kB at *
  have hRdef : (commonUnit A B).rep = IntType.common A.rep B.rep := rfl
  have hcdef : (commonUnit A B).scale = commonScale A.scale B.scale := rfl
  have pkB' : 0 < kB := by
    rw [← hkBdef, hcdef]
    exact pkB
  have hy0 : b * kB ≠ 0 := mul_ne_zero hb0 (ne_of_gt pkB')
  have hone : (1 : Int) ≤ INTMAX_MAX := by unfold INTMAX_MAX; norm_num
  -- the quotient
  have hdiv : div A B a b = some (Int.tdiv (a * kA) (b * kB)) := by
    simp only [div, hct, hx', hy', hy0, if_false]
    exact IntType.op_of_inRange hq
  -- ranges of the intermediate values
  have hqy := tdiv_mul_between_of_ne (a * kA) (b * kB)
  have hbqk : b * Int.tdiv (a * kA) (b * kB) * kB = Int.tdiv (a * kA) (b * kB) * (b * kB) := by
    ring
  have hbR : (commonUnit A B).rep.inRange b :=
    IntType.inRange_of_between hy (factor_between b kB (by omega))
  have hZ : (commonUnit A B).rep.inRange (b * Int.tdiv (a * kA) (b * kB) * kB) := by
    rw [hbqk]
    exact IntType.inRange_of_between hx hqy
  have hbq : (commonUnit A B).rep.inRange (b * Int.tdiv (a * kA) (b * kB)) :=
    IntType.inRange_of_between hZ (factor_between _ kB (by omega))
  have hr : (commonUnit A B).rep.inRange (Int.tmod (a * kA) (b * kB)) :=
    IntType.inRange_of_between hx (tmod_between _ _)
  -- the types met along the way
  have hrep1 : IntType.common B.rep (IntType.common A.rep B.rep) = IntType.common A.rep B.rep := by
    rw [IntType.common_comm, IntType.common_absorb_right]
  have hP : scalar_mul_type (IntType.common A.rep B.rep) B =
      ⟨IntType.common A.rep B.rep, B.scale⟩ := by
    unfold scalar_mul_type
    rw [IntType.common_absorb_right]
  have hS : commonUnit ⟨IntType.common A.rep B.rep, B.scale⟩ (commonUnit A B) =
      commonUnit A B := by
    unfold commonUnit
    simp only [IntType.common_self, (commonScale_absorb A.scale B.scale).1]
  have hS' : commonUnit (commonUnit A B) A = commonUnit A B := by
    unfold commonUnit
    simp only [IntType.common_absorb_left, (commonScale_absorb A.scale B.scale).2]
  have hct1 : castCt (commonUnit A B).rep A.rep = castCt (commonUnit A B).rep (commonUnit A B).rep := by
    unfold castCt
    rw [hRdef, IntType.common_absorb_left, IntType.common_self]
  have hxc : (castCt (commonUnit A B).rep (commonUnit A B).rep).inRange (a * kA) := by
    rw [← hct1]
    exact hxa
  -- the product (a / b) * b
  have hmul : scalar_mul (IntType.common A.rep B.rep) B (Int.tdiv (a * kA) (b * kB)) b =
      some (b * Int.tdiv (a * kA) (b * kB)) := by
    have hcB : unit.converting B ⟨IntType.common A.rep B.rep, B.scale⟩ b = some b :=
      converting_same_scale hB B.rep (IntType.common A.rep B.rep) hbR
    unfold scalar_mul mul_scalar mul_scalar_type
    have hq' : (IntType.common A.rep B.rep).inRange (Int.tdiv (a * kA) (b * kB)) := hq
    simp only [hrep1, hcB]
    rw [IntType.convert_of_inRange hq']
    exact IntType.op_of_inRange hbq
  -- the remainder
  have hrem : rem A B a b = some (Int.tmod (a * kA) (b * kB)) := by
    have hcy : (IntType.common A.rep B.rep).convert (b * kB) = b * kB :=
      IntType.convert_of_inRange hy
    have hcx : (IntType.common A.rep B.rep).convert (a * kA) = a * kA :=
      IntType.convert_of_inRange hx
    have hq' : (IntType.common A.rep B.rep).inRange (Int.tdiv (a * kA) (b * kB)) := hq
    simp only [rem, hct, hx', hy', hcy, hcx, hy0, if_false,
      IntType.arith_of_inRange (IntType.inRange_promote hq')]
    exact IntType.op_of_inRange hr
  -- the sum
  have hsum : add ⟨IntType.common A.rep B.rep, B.scale⟩ (commonUnit A B)
      (b * Int.tdiv (a * kA) (b * kB)) (Int.tmod (a * kA) (b * kB)) = some (a * kA) := by
    have hl' : (Int.lcm B.scale.den (commonUnit A B).scale.den : Int) ≤ INTMAX_MAX := by
      have e := congrArg Ratio.den (commonScale_absorb A.scale B.scale).1
      have e' : ((Int.lcm B.scale.den (commonUnit A B).scale.den : Nat) : Int) =
          (commonScale A.scale B.scale).den := e
      rw [e']
      exact hcv.2.2.2.1
    obtain ⟨hct2, hcp, hcr⟩ := @operands_in_common ⟨IntType.common A.rep B.rep, B.scale⟩
      (commonUnit A B) hB hcv hl'
    rw [hS] at hct2 hcp hcr
    have k1 : scaleFactor B.scale (commonUnit A B).scale = kB := hkBdef
    have k2 : scaleFactor (commonUnit A B).scale (commonUnit A B).scale = 1 :=
      scaleFactor_self hcv
    have hp := hcp (b * Int.tdiv (a * kA) (b * kB)) (by rw [k1]; exact hkB)
      (by rw [k1, hbqk]; exact IntType.inRange_of_between hxc hqy)
      (by rw [k1]; exact hZ)
    have hr' := hcr (Int.tmod (a * kA) (b * kB)) (by rw [k2]; exact hone)
      (by rw [k2, mul_one]; exact IntType.inRange_of_between hxc (tmod_between _ _))
      (by rw [k2, mul_one]; exact hr)
    rw [k1] at hp
    rw [k2, mul_one] at hr'
    simp only [add, hct2, hp, hr']
    rw [hbqk, Int.tdiv_add_tmod']
    exact IntType.op_of_inRange hx
  -- the comparison
  have heq : eq (commonUnit A B) A (a * kA) a = some true := by
    have hfit : fitsCommon (commonUnit A B) A (a * kA) a := by
      have e := congrArg Ratio.den (commonScale_absorb A.scale B.scale).2
      have e' : ((Int.lcm (commonUnit A B).scale.den A.scale.den : Nat) : Int) =
          (commonScale A.scale B.scale).den := e
      have k2 : scaleFactor (commonUnit A B).scale (commonUnit A B).scale = 1 :=
        scaleFactor_self hcv
      unfold fitsCommon
      rw [hS', e', k2, hkAdef, mul_one]
      exact ⟨hcv.2.2.2.1, hone, hkA, hxc, hx, hxa, hx⟩
    rw [eq_of_fitsCommon hcv hA hfit]
    congr 1
    rw [decide_eq_true_eq, ← hkAdef, hcdef]
    exact magnitude_scaled hcv hd1 a
  refine ⟨hdiv, hrem, ?_, abs_tmod_lt _ hy0⟩
  rw [hdiv]
  show (scalar_mul (IntType.common A.rep B.rep) B (Int.tdiv (a * kA) (b * kB)) b).bind _ = _
  rw [hmul]
  show (rem A B a b).bind _ = _
  rw [hrem]
  show (add (scalar_mul_type (IntType.common A.rep B.rep) B) (commonUnit A B) _ _).bind _ = _
  rw [hP, hsum]
  show eq (commonUnit ⟨IntType.common A.rep B.rep, B.scale⟩ (commonUnit A B)) A (a * kA) a = _
  rw [hS]
  exact heq

/-- Witness for C18: `i_kilobytes(-2500) / i_megabytes(2)` is `-1` and
`i_kilobytes(-2500) % i_megabytes(2)` is `i_kilobytes(-452)`. -/
theorem quotient_remainder_consistent_witness :
    div i_kilobytes i_megabytes (-2500) 2 = some (-1) ∧
    rem i_kilobytes i_megabytes (-2500) 2 = some (-452) := by
  have f1 : scaleFactor i_kilobytes.scale (commonUnit i_kilobytes i_megabytes).scale = 1 := by
    norm_num [scaleFactor, scaleQuotient, Ratio.toRat, commonUnit, commonScale, i_megabytes,
      i_kilobytes, ratio, static_abs, static_sign, static_gcd]
  have f2 : scaleFactor i_megabytes.scale (commonUnit i_kilobytes i_megabytes).scale = 1024 := by
    norm_num [scaleFactor, scaleQuotient, Ratio.toRat, commonUnit, commonScale, i_megabytes,
      i_kilobytes, ratio, static_abs, static_sign, static_gcd]
  have h := quotient_remainder_consistent i_kilobytes i_megabytes (by decide) (by decide)
    (-2500) 2 (by unfold fitsCommon; rw [f1, f2]; decide) (by decide)
    (by rw [f1, f2]; decide)
  rw [f1, f2] at h
  exact ⟨h.1.trans (by decide), h.2.1.trans (by decide)⟩

end datasize
